import Mathlib

/-
Verification of the name-matching and data-merge engine of
SleeperScrapeADPMerge (src/SleeperADPMerge/sleeper_scraper.py).

Python strings are modelled as lists of Unicode code points (`List Nat`).
Python stdlib collaborators outside the repository (`difflib.SequenceMatcher`,
`unicodedata`, `float()`/`int()` literal parsing) are modelled at their
interface: the similarity scorer is a parameter, the NFD accent fold uses a
representative decomposition table, and numeric parsing covers ordinary
sign/digit/decimal-point/exponent literals (no `inf`/`nan`/underscores).
-/

namespace SleeperSpec

/-- A Python string as its list of code points. -/
def pyStr (s : String) : List Nat :=
  s.toList.map Char.toNat

/-- Python `str.split()` / `str.strip()` whitespace. -/
def wsChar (c : Nat) : Bool :=
  c = 32 || c = 9 || c = 10 || c = 13 || c = 11 || c = 12

/-- Model of Python `str.lower` on one code point (ASCII rule; identity
elsewhere, scoped to the data handled by this program). -/
def pyLowerChar (c : Nat) : Nat :=
  if 65 ≤ c ∧ c ≤ 90 then c + 32 else c

/-- Model of Python `str.lower`. -/
def pyLower (s : List Nat) : List Nat :=
  s.map pyLowerChar

/-- Python `str.strip()`. -/
def pyStrip (s : List Nat) : List Nat :=
  List.reverse (List.dropWhile wsChar (List.reverse (List.dropWhile wsChar s)))

/-- Fuel-driven worker for Python `str.replace`; one unit of fuel is spent per
consumed character, so `s.length` fuel always suffices. -/
def pyReplaceF (old new : List Nat) : Nat → List Nat → List Nat
  | 0, s => s
  | _ + 1, [] => []
  | fuel + 1, c :: rest =>
    if old ≠ [] ∧ old.isPrefixOf (c :: rest) then
      new ++ pyReplaceF old new fuel ((c :: rest).drop old.length)
    else
      c :: pyReplaceF old new fuel rest

/-- Python `str.replace(old, new)`: replace non-overlapping occurrences,
left to right. -/
def pyReplace (s old new : List Nat) : List Nat :=
  pyReplaceF old new s.length s

/-- Python `old in s` for strings: `old` occurs as a contiguous substring. -/
def occursIn (pat : List Nat) : List Nat → Bool
  | [] => pat.isPrefixOf ([] : List Nat)
  | c :: t => pat.isPrefixOf (c :: t) || occursIn pat t

/-- Auxiliary state machine for Python `str.split(sep)` (keeps empty parts). -/
def splitSepAux (sep : Nat) : List Nat → List Nat → List (List Nat)
  | [], acc => [acc.reverse]
  | c :: t, acc =>
    if c = sep then acc.reverse :: splitSepAux sep t []
    else splitSepAux sep t (c :: acc)

/-- Python `str.split(sep)` for a one-character separator. -/
def splitSep (sep : Nat) (s : List Nat) : List (List Nat) :=
  splitSepAux sep s []

/-- Auxiliary state machine for Python `str.split()` (whitespace split,
empty parts discarded). -/
def splitWsAux : List Nat → List Nat → List (List Nat)
  | [], acc => if acc = [] then [] else [acc.reverse]
  | c :: t, acc =>
    if wsChar c then
      (if acc = [] then splitWsAux t [] else acc.reverse :: splitWsAux t [])
    else splitWsAux t (c :: acc)

/-- Python `str.split()`. -/
def pySplitWs (s : List Nat) : List (List Nat) :=
  splitWsAux s []

/-- Python `' '.join(words)`. -/
def joinSp : List (List Nat) → List Nat
  | [] => []
  | w :: [] => w
  | w :: x :: ws => w ++ 32 :: joinSp (x :: ws)

/-- `' '.join(s.split())`: collapse whitespace runs to single spaces. -/
def collapseWs (s : List Nat) : List Nat :=
  joinSp (pySplitWs s)

/-- Representative table for `unicodedata.normalize('NFD', ·)` (Python stdlib,
outside the repository): each covered accented letter decomposes into its ASCII
base letter followed by a combining mark; every other code point is atomic. -/
def decompTable : List (Nat × List Nat) :=
  [(0xE0, [97, 0x300]), (0xE1, [97, 0x301]), (0xE8, [101, 0x300]),
   (0xE9, [101, 0x301]), (0xED, [105, 0x301]), (0xF1, [110, 0x303]),
   (0xF3, [111, 0x301]), (0xF6, [111, 0x308]), (0xFA, [117, 0x301]),
   (0xE7, [99, 0x327])]

/-- NFD decomposition of one code point (table lookup, identity elsewhere). -/
def decompChar (c : Nat) : List Nat :=
  (List.lookup c decompTable).getD [c]

/-- `unicodedata.category(chr(c)) == 'Mn'`: a combining (diacritical) mark. -/
def isMark (c : Nat) : Bool :=
  768 ≤ c && c ≤ 879

/-- NFD decomposition followed by removal of combining marks (the accent
stripping step of the normalizer). -/
def nfdStrip (s : List Nat) : List Nat :=
  (s.flatMap decompChar).filter (fun c => !isMark c)

/-- The ordered suffix list of `normalize_player_name`. -/
def suffixList : List (List Nat) :=
  [pyStr (" jr."), pyStr (" jr"), pyStr (" sr."), pyStr (" sr"),
   pyStr (" iii"), pyStr (" ii"), pyStr (" iv"), pyStr (" v")]

/-- The suffix-removal loop: each listed suffix is checked in order against
the current string and removed (with a strip) when the string ends with it. -/
def stripSuffixes (s : List Nat) : List Nat :=
  suffixList.foldl
    (fun cur suf =>
      if suf.isSuffixOf cur then pyStrip (cur.take (cur.length - suf.length))
      else cur) s

/-- Punctuation handling: remove `.`, turn `-` into a space, remove the
apostrophe (code point 39) and the backtick (code point 96), in source order. -/
def stripPunct (s : List Nat) : List Nat :=
  pyReplace (pyReplace (pyReplace (pyReplace s [46] []) [45] [32]) [39] []) [96] []

/-- The first-name substitution table, in source (dict insertion) order. -/
def nicknameTable : List (List Nat × List Nat) :=
  [(pyStr ("kenneth"), pyStr ("ken")), (pyStr ("michael"), pyStr ("mike")),
   (pyStr ("robert"), pyStr ("bob")), (pyStr ("william"), pyStr ("will")),
   (pyStr ("christopher"), pyStr ("chris")), (pyStr ("matthew"), pyStr ("matt")),
   (pyStr ("anthony"), pyStr ("tony")), (pyStr ("joshua"), pyStr ("josh")),
   (pyStr ("marquise"), pyStr ("hollywood"))]

/-- The nickname-substitution loop: literal substring replacements applied
sequentially in table order. -/
def applyReplacements (s : List Nat) : List Nat :=
  nicknameTable.foldl (fun cur p => pyReplace cur p.1 p.2) s

/-- `normalize_player_name` (sleeper_scraper.py lines 530-572): lowercase and
strip, NFD accent fold, suffix removal, punctuation removal, nickname
substitution, whitespace collapse; falsy input yields the empty string. -/
def normalize_player_name (name : List Nat) : List Nat :=
  if name = [] then []
  else
    collapseWs (applyReplacements (stripPunct (stripSuffixes
      (nfdStrip (pyStrip (pyLower name))))))

/-- An ASCII digit. -/
def isDigitCh (c : Nat) : Bool :=
  48 ≤ c && c ≤ 57

/-- Python `str.isdigit()` (ASCII-digit scope). -/
def pyIsdigit (s : List Nat) : Bool :=
  !s.isEmpty && s.all isDigitCh

/-- The decimal value of a digit string. -/
def digitsVal (s : List Nat) : Nat :=
  s.foldl (fun a c => a * 10 + (c - 48)) 0

/-- Model of Python `int(str)` after stripping: optional sign then digits. -/
def pyIntBody (t : List Nat) : Option Int :=
  match t with
  | [] => none
  | c :: ds =>
    if c = 43 then (if pyIsdigit ds then some ((digitsVal ds : Int)) else none)
    else if c = 45 then (if pyIsdigit ds then some (-(digitsVal ds : Int)) else none)
    else if pyIsdigit (c :: ds) then some ((digitsVal (c :: ds) : Int)) else none

/-- Model of Python `int(str)` (stdlib collaborator): surrounding whitespace
allowed, optional sign, decimal digits; anything else raises (`none`). -/
def pyInt (s : List Nat) : Option Int :=
  pyIntBody (pyStrip s)

/-- Mantissa of a float literal: `digits [. digits]` with at least one digit;
returns its value and the unconsumed remainder. -/
def pyFloatMant (t : List Nat) : Option (ℚ × List Nat) :=
  let ip := t.takeWhile isDigitCh
  let r1 := t.dropWhile isDigitCh
  match r1 with
  | 46 :: r2 =>
    let fp := r2.takeWhile isDigitCh
    let r3 := r2.dropWhile isDigitCh
    if ip = [] ∧ fp = [] then none
    else some ((digitsVal ip : ℚ) + (digitsVal fp : ℚ) / ((10 : ℚ) ^ fp.length), r3)
  | _ => if ip = [] then none else some ((digitsVal ip : ℚ), r1)

/-- Exponent digits with optional sign. -/
def pyFloatExpDigits (r : List Nat) : Option ℚ
  :=
  match r with
  | [] => none
  | c :: ds =>
    if c = 43 then (if pyIsdigit ds then some ((10 : ℚ) ^ digitsVal ds) else none)
    else if c = 45 then
      (if pyIsdigit ds then some (1 / (10 : ℚ) ^ digitsVal ds) else none)
    else if pyIsdigit (c :: ds) then some ((10 : ℚ) ^ digitsVal (c :: ds)) else none

/-- Remainder after the mantissa: either nothing or an exponent part;
returns the scale factor. -/
def pyFloatExp : List Nat → Option ℚ
  | [] => some 1
  | c :: r => if c = 101 ∨ c = 69 then pyFloatExpDigits r else none

/-- Strip the optional sign of a float literal. -/
def pyFloatSign (t : List Nat) : Bool × List Nat :=
  match t with
  | [] => (false, [])
  | c :: r =>
    if c = 43 then (false, r)
    else if c = 45 then (true, r)
    else (false, c :: r)

/-- Model of Python `float(str)` (stdlib collaborator) over ordinary decimal
literals with optional sign and exponent; values live in `ℚ`. -/
def pyFloat (s : List Nat) : Option ℚ :=
  let p := pyFloatSign (pyStrip s)
  match pyFloatMant p.2 with
  | none => none
  | some (m, rest) =>
    match pyFloatExp rest with
    | none => none
    | some e => some (if p.1 then -(m * e) else m * e)

/-- The dash branch of `parse_height` followed by the final float fall-through
(sleeper_scraper.py lines 493-505): a two-part dash split parses as
feet/inches and any parse error is caught as `none`; otherwise the string is
given to `float`. -/
def dashOrFloat (t : List Nat) : Option ℚ :=
  if 45 ∈ t then
    match splitSep 45 t with
    | [a, b] =>
      match pyInt a, (if b = [] then some (0 : Int) else pyInt b) with
      | some f, some i => some (((12 * f + i : Int) : ℚ))
      | _, _ => none
    | _ => pyFloat t
  else pyFloat t

/-- The body of `parse_height` after the initial strip/empty check: digit
strings are inches; an apostrophe selects the feet-and-inches branch (with
double quotes removed first); a two-part split parses or raises (caught as
`none`), other shapes fall through to the dash branch and the float parse. -/
def parseHeightBody (s : List Nat) : Option ℚ :=
  if pyIsdigit s then some ((digitsVal s : ℚ))
  else if 39 ∈ s then
    let s1 := pyReplace s [34] []
    match splitSep 39 s1 with
    | [a, b] =>
      match pyInt a, (if b = [] then some (0 : Int) else pyInt b) with
      | some f, some i => some (((12 * f + i : Int) : ℚ))
      | _, _ => none
    | _ => dashOrFloat s1
  else dashOrFloat s

/-- `parse_height` (sleeper_scraper.py lines 467-505). -/
def parse_height (h : Option (List Nat)) : Option ℚ :=
  match h with
  | none => none
  | some hv =>
    let s := pyStrip hv
    if s = [] then none else parseHeightBody s

/-- `safe_numeric` (sleeper_scraper.py lines 441-465) on a string value. -/
def safe_numeric_str (s : List Nat) : Option ℚ :=
  let t := pyStrip s
  if t = [] then none
  else if 46 ∈ t then pyFloat t
  else (pyInt t).map (fun i => (i : ℚ))

/-- The feet-and-inches reading of a two-part split (claim wording): integer
feet, integer inches with an empty inches part read as zero. -/
def specSplitForm (sep : Nat) (s : List Nat) : Option ℚ :=
  match splitSep sep s with
  | [a, b] =>
    match pyInt a, (if b = [] then some (0 : Int) else pyInt b) with
    | some f, some i => some (((12 * f + i : Int) : ℚ))
    | _, _ => none
  | _ => none

/-- The height parser exactly as the claim words it (for comparison with
`parse_height`): a pure digit string is inches; otherwise the first matching
form among feet-quote-inches, feet-dash-inches and a decimal string wins;
null, empty and any other form give absent. -/
def specParseHeightClaim (h : Option (List Nat)) : Option ℚ :=
  match h with
  | none => none
  | some hv =>
    let s := pyStrip hv
    if s = [] then none
    else if pyIsdigit s then some ((digitsVal s : ℚ))
    else match specSplitForm 39 s with
    | some v => some v
    | none =>
      match specSplitForm 45 s with
      | some v => some v
      | none => pyFloat s

/-- A pandas cell value: missing (`None`/NaN), a string, or a number. -/
inductive Cell where
  | pynone : Cell
  | pystr : List Nat → Cell
  | pynum : ℚ → Cell
deriving DecidableEq

/-- A DataFrame row as an association list from column name to cell. -/
abbrev Row := List (String × Cell)

/-- A pandas DataFrame: ordered column names and ordered rows.  Row labels
coincide with positions, as for the roster table (built from a list of dicts,
hence a `RangeIndex`, and never reindexed by the merge). -/
structure DFrame where
  cols : List String
  rows : List Row
deriving DecidableEq

/-- Read one cell (missing entries read as absent). -/
def rowGet (r : Row) (c : String) : Cell :=
  match r.find? (fun p => p.1 == c) with
  | some p => p.2
  | none => Cell.pynone

/-- Does the row carry this column? -/
def rowHas (r : Row) (c : String) : Bool :=
  r.any (fun p => p.1 == c)

/-- Write one cell, appending the column when absent. -/
def rowSet (r : Row) (c : String) (v : Cell) : Row :=
  if rowHas r c then r.map (fun p => if p.1 == c then (p.1, v) else p)
  else r ++ [(c, v)]

/-- Remove one column from a row. -/
def rowDrop (r : Row) (c : String) : Row :=
  r.filter (fun p => p.1 != c)

/-- Column list after a whole-column assignment (append when new). -/
def addColName (cols : List String) (c : String) : List String :=
  if cols.contains c then cols else cols ++ [c]

/-- `df[c] = v`: whole-column assignment of one constant. -/
def dfSetConst (df : DFrame) (c : String) (v : Cell) : DFrame :=
  ⟨addColName df.cols c, df.rows.map (fun r => rowSet r c v)⟩

/-- `df[c] = df[...].apply(f)`: whole-column assignment computed per row. -/
def dfSetBy (df : DFrame) (c : String) (f : Row → Cell) : DFrame :=
  ⟨addColName df.cols c, df.rows.map (fun r => rowSet r c (f r))⟩

/-- Update the row at one position. -/
def updateAt : List Row → Nat → (Row → Row) → List Row
  | [], _, _ => []
  | r :: t, 0, f => f r :: t
  | r :: t, Nat.succ i, f => r :: updateAt t i f

/-- `df.loc[i, c] = v` for a column the frame already carries. -/
def dfLocSet (df : DFrame) (i : Nat) (c : String) (v : Cell) : DFrame :=
  ⟨df.cols, updateAt df.rows i (fun r => rowSet r c v)⟩

/-- `df.drop(c, axis=1)`: a fresh frame without the column. -/
def dfDrop (df : DFrame) (c : String) : DFrame :=
  ⟨df.cols.filter (fun x => x != c), df.rows.map (fun r => rowDrop r c)⟩

/-- `df.empty`: either axis has length zero. -/
def pdEmpty (df : DFrame) : Bool :=
  df.rows.isEmpty || df.cols.isEmpty

/-- Positions of the rows whose `normalized_name` cell equals the given
normalized name (the boolean-mask selection of the exact matcher). -/
def matchIdxs (df : DFrame) (nm : List Nat) : List Nat :=
  (df.rows.enum.filter
    (fun p => rowGet p.2 ("normalized_name") == Cell.pystr nm)).map Prod.fst

/-- A roster row's `full_name` string (the filter pipeline always stores a
string there). -/
def rosterName (r : Row) : List Nat :=
  match rowGet r ("full_name") with
  | Cell.pystr s => s
  | _ => []

/-- The value of the fuzzy matcher's Python return expression
`best_score if best_match is not None else (None, 0)`: by conditional-
expression precedence the whole conditional is the second tuple component,
so the no-match arm yields the nested tuple `(None, 0)`. -/
inductive PySnd where
  | num : ℚ → PySnd
  | tup : Option Nat × ℚ → PySnd
deriving DecidableEq

/-- The scan of `fuzzy_match_players`: update the best pair only when the
current similarity strictly beats the best score and reaches the threshold. -/
def fuzzyGo (th : ℚ) : List ℚ → Nat → Option Nat × ℚ → Option Nat × ℚ
  | [], _, st => st
  | q :: rest, i, st =>
    if st.2 < q ∧ th ≤ q then fuzzyGo th rest (i + 1) (some i, q)
    else fuzzyGo th rest (i + 1) st

/-- The similarity scores of a ranking name against every roster row, in
roster order.  `sim` stands for `difflib.SequenceMatcher(None, a, b).ratio()`
(Python stdlib, outside the repository). -/
def simsOf (sim : List Nat → List Nat → ℚ) (ranking_name : List Nat)
    (df : DFrame) : List ℚ :=
  df.rows.map
    (fun r => sim (normalize_player_name ranking_name)
      (normalize_player_name (rosterName r)))

/-- The default `threshold=0.8` of `fuzzy_match_players`, given as a reduced
rational literal (see `defaultThreshold_eq`). -/
def defaultThreshold : ℚ := ⟨4, 5, by decide, by decide⟩

/-- `fuzzy_match_players` (sleeper_scraper.py lines 507-528). -/
def fuzzy_match_players (sim : List Nat → List Nat → ℚ) (ranking_name : List Nat)
    (players_df : DFrame) (threshold : ℚ) : Option Nat × PySnd :=
  let res := fuzzyGo threshold (simsOf sim ranking_name players_df) 0 (none, 0)
  (res.1,
    match res.1 with
    | some _ => PySnd.num res.2
    | none => PySnd.tup (none, 0))

/-- One unmatched ranking row as recorded in the statistics. -/
structure Unmatched where
  name : List Nat
  normalized_name : List Nat
  team : Cell
  position : Cell
deriving DecidableEq

/-- A value of the `match_stats` dict. -/
inductive StatV where
  | num : Nat → StatV
  | lst : List Unmatched → StatV
deriving DecidableEq

/-- The `match_stats` dict as an association list. -/
abbrev Stats := List (String × StatV)

/-- The statistics dict as initialized at the start of a real merge. -/
def initStats : Stats :=
  [("ffpc_matched", StatV.num 0), ("ffpc_fuzzy_matched", StatV.num 0),
   ("ffpc_unmatched", StatV.lst []), ("underdog_matched", StatV.num 0),
   ("underdog_fuzzy_matched", StatV.num 0), ("underdog_unmatched", StatV.lst []),
   ("players_with_rankings", StatV.num 0)]

/-- Update the value stored under a key. -/
def statMap (st : Stats) (k : String) (f : StatV → StatV) : Stats :=
  st.map (fun p => if p.1 == k then (p.1, f p.2) else p)

/-- `match_stats[k] += 1`. -/
def statInc (st : Stats) (k : String) : Stats :=
  statMap st k (fun v => match v with | StatV.num n => StatV.num (n + 1) | x => x)

/-- `match_stats[k].append(u)`. -/
def statApp (st : Stats) (k : String) (u : Unmatched) : Stats :=
  statMap st k (fun v => match v with | StatV.lst l => StatV.lst (l ++ [u]) | x => x)

/-- `match_stats[k] = v`. -/
def statSet (st : Stats) (k : String) (v : StatV) : Stats :=
  statMap st k (fun _ => v)

/-- One well-formed ranking row after column standardization: the raw name
plus position, team and the four source metric cells. -/
structure RRow where
  name : List Nat
  position : Cell
  team : Cell
  adp : Cell
  rank : Cell
  delta : Cell
  pos_rank : Cell
deriving DecidableEq

/-- A ranking-table row: either well formed, or malformed (`bad`), in which
case its first field access raises and the merge loop dies there. -/
inductive RRowX where
  | ok : RRow → RRowX
  | bad : RRowX
deriving DecidableEq

/-- A ranking-source table. -/
abbrev RTable := List RRowX

/-- The `ranking_data` dict produced by `load_ranking_csvs`. -/
abbrev RankingData := List (String × RTable)

/-- The eight per-source ranking columns, in initialization order
(sleeper_scraper.py lines 642-645). -/
def rankingColumns : List String :=
  [("ffpc_adp"), ("ffpc_etr_rank"), ("ffpc_delta"), ("ffpc_pos_rank"),
   ("ud_adp"), ("ud_etr_rank"), ("ud_delta"), ("ud_pos_rank")]

/-- The four FFPC ranking columns. -/
def ffpcColumns : List String :=
  [("ffpc_adp"), ("ffpc_etr_rank"), ("ffpc_delta"), ("ffpc_pos_rank")]

/-- Write the four FFPC fields of one ranking row onto roster row `i`. -/
def ffpcApply (df : DFrame) (i : Nat) (r : RRow) : DFrame :=
  dfLocSet (dfLocSet (dfLocSet (dfLocSet df i ("ffpc_adp") r.adp)
    i ("ffpc_etr_rank") r.rank) i ("ffpc_delta") r.delta) i ("ffpc_pos_rank") r.pos_rank

/-- Write the four Underdog fields of one ranking row onto roster row `i`. -/
def udApply (df : DFrame) (i : Nat) (r : RRow) : DFrame :=
  dfLocSet (dfLocSet (dfLocSet (dfLocSet df i ("ud_adp") r.adp)
    i ("ud_etr_rank") r.rank) i ("ud_delta") r.delta) i ("ud_pos_rank") r.pos_rank

/-- The team-disambiguation scan of the FFPC branch: the first candidate
index (in roster-table order) whose `team` cell equals the ranking row's. -/
def findTeam (df : DFrame) (ms : List Nat) (t : Cell) : Option Nat :=
  ms.find? (fun i => rowGet (df.rows.getD i []) ("team") == t)

/-- The unmatched-list record for a ranking row. -/
def unmatchedOf (r : RRow) (nm : List Nat) : Unmatched :=
  ⟨r.name, nm, r.team, r.position⟩

/-- The body of the FFPC merge loop for one ranking row
(sleeper_scraper.py lines 654-713); `none` models an exception escaping
the loop. -/
def ffpcStep (sim : List Nat → List Nat → ℚ) (st : DFrame × Stats) (rx : RRowX) :
    Option (DFrame × Stats) :=
  match rx with
  | RRowX.bad => none
  | RRowX.ok r =>
    if (matchIdxs st.1 (normalize_player_name r.name)).length = 1 then
      some (ffpcApply st.1
        ((matchIdxs st.1 (normalize_player_name r.name)).headD 0) r,
        statInc st.2 ("ffpc_matched"))
    else if 1 < (matchIdxs st.1 (normalize_player_name r.name)).length then
      match findTeam st.1 (matchIdxs st.1 (normalize_player_name r.name))
          r.team with
      | some i => some (ffpcApply st.1 i r, statInc st.2 ("ffpc_matched"))
      | none => some (st.1, statApp st.2 ("ffpc_unmatched")
          (unmatchedOf r (normalize_player_name r.name)))
    else
      match (fuzzy_match_players sim r.name st.1 defaultThreshold).1 with
      | some i => some (ffpcApply st.1 i r, statInc st.2 ("ffpc_fuzzy_matched"))
      | none => some (st.1, statApp st.2 ("ffpc_unmatched")
          (unmatchedOf r (normalize_player_name r.name)))

/-- The body of the Underdog merge loop for one ranking row
(sleeper_scraper.py lines 719-750): any nonempty exact-match set selects
its first index, with no team disambiguation. -/
def udStep (sim : List Nat → List Nat → ℚ) (st : DFrame × Stats) (rx : RRowX) :
    Option (DFrame × Stats) :=
  match rx with
  | RRowX.bad => none
  | RRowX.ok r =>
    if 0 < (matchIdxs st.1 (normalize_player_name r.name)).length then
      some (udApply st.1
        ((matchIdxs st.1 (normalize_player_name r.name)).headD 0) r,
        statInc st.2 ("underdog_matched"))
    else
      match (fuzzy_match_players sim r.name st.1 defaultThreshold).1 with
      | some i => some (udApply st.1 i r,
          statInc st.2 ("underdog_fuzzy_matched"))
      | none => some (st.1, statApp st.2 ("underdog_unmatched")
          (unmatchedOf r (normalize_player_name r.name)))

/-- Run one source's loop over its table; on an exception the state reached
so far is kept (the DataFrame was mutated in place) and `false` is returned. -/
def runRows (f : DFrame × Stats → RRowX → Option (DFrame × Stats)) :
    DFrame × Stats → RTable → (DFrame × Stats) × Bool
  | st, [] => (st, true)
  | st, rx :: rest =>
    match f st rx with
    | none => (st, false)
    | some st2 => runRows f st2 rest

/-- `df['ffpc_adp'].notna() | df['ud_adp'].notna()` for one row. -/
def hasAnyRanking (r : Row) : Bool :=
  rowGet r ("ffpc_adp") != Cell.pynone || rowGet r ("ud_adp") != Cell.pynone

/-- Number of roster rows with at least one source's ranking present. -/
def countRankings (df : DFrame) : Nat :=
  (df.rows.filter hasAnyRanking).length

/-- The normalized-name cell computed for one roster row. -/
def normalizedCol (r : Row) : Cell :=
  Cell.pystr (normalize_player_name (rosterName r))

/-- The column preparation of the merge: add `normalized_name`, then
initialize the eight ranking columns to absent. -/
def mergePrep (df : DFrame) : DFrame :=
  rankingColumns.foldl (fun d c => dfSetConst d c Cell.pynone)
    (dfSetBy df ("normalized_name") normalizedCol)

/-- The heap of DataFrame objects: Python-level aliasing is modelled by
references into a store, so in-place mutation is observable. -/
structure PdState where
  store : Nat → DFrame
  next : Nat

/-- Mutate the object a reference points to. -/
def setRef (σ : PdState) (r : Nat) (df : DFrame) : PdState :=
  ⟨fun i => if i = r then df else σ.store i, σ.next⟩

/-- Allocate a fresh object. -/
def allocRef (σ : PdState) (df : DFrame) : PdState × Nat :=
  (⟨fun i => if i = σ.next then df else σ.store i, σ.next + 1⟩, σ.next)

/-- One source's block of the merge: when the source's key is present in
`ranking_data`, run its loop over its table (`false` on an exception),
otherwise skip it. -/
def runSource (step : DFrame × Stats → RRowX → Option (DFrame × Stats))
    (key : String) (rd : RankingData) (st : DFrame × Stats) :
    (DFrame × Stats) × Bool :=
  match List.lookup key rd with
  | some t => runRows step st t
  | none => (st, true)

/-- The two source blocks in program order: the FFPC loop runs first, and an
exception there stops the merge body, so the Underdog loop is never
attempted; otherwise the Underdog loop runs on the frame the FFPC loop
produced. -/
def mergeRun (sim : List Nat → List Nat → ℚ) (df0 : DFrame) (rd : RankingData) :
    (DFrame × Stats) × Bool :=
  if (runSource (ffpcStep sim) ("ffpc") rd (mergePrep df0, initStats)).2 = false
  then ((runSource (ffpcStep sim) ("ffpc") rd (mergePrep df0, initStats)).1, false)
  else runSource (udStep sim) ("underdog") rd
    (runSource (ffpcStep sim) ("ffpc") rd (mergePrep df0, initStats)).1

/-- `merge_ranking_data` (sleeper_scraper.py lines 619-780) over the heap:
early exit for an empty roster or no ranking data; otherwise prepare
columns and run the two source loops (an exception leaves the in-place
mutations visible on the caller's object and propagates as `none`), count
rows with rankings, and return a fresh frame without `normalized_name`. -/
def merge_ranking_data (sim : List Nat → List Nat → ℚ) (σ : PdState) (ref : Nat)
    (rd : RankingData) : PdState × Option (Nat × Stats) :=
  if pdEmpty (σ.store ref) || rd.isEmpty then (σ, some (ref, []))
  else if (mergeRun sim (σ.store ref) rd).2 = false then
    (setRef σ ref (mergeRun sim (σ.store ref) rd).1.1, none)
  else
    ((allocRef (setRef σ ref (mergeRun sim (σ.store ref) rd).1.1)
        (dfDrop (mergeRun sim (σ.store ref) rd).1.1 ("normalized_name"))).1,
      some ((allocRef (setRef σ ref (mergeRun sim (σ.store ref) rd).1.1)
          (dfDrop (mergeRun sim (σ.store ref) rd).1.1 ("normalized_name"))).2,
        statSet (mergeRun sim (σ.store ref) rd).1.2 ("players_with_rankings")
          (StatV.num (countRankings (mergeRun sim (σ.store ref) rd).1.1))))

/-- The merge call site inside `export_to_excel` (lines 914-923): the
try/except around the merge keeps the caller's frame object (as mutated so
far) when the merge raises, and continues either way. -/
def exportMergeStep (sim : List Nat → List Nat → ℚ) (σ : PdState) (ref : Nat)
    (rd : RankingData) : PdState × Nat :=
  match merge_ranking_data sim σ ref rd with
  | (σ2, some pr) => (σ2, pr.1)
  | (σ2, none) => (σ2, ref)

def simZero : List Nat → List Nat → ℚ := fun _ _ => 0

def rosterRowT (name team : String) : Row :=
  [("full_name", Cell.pystr (pyStr name)), ("team", Cell.pystr (pyStr team))]

def dfC1 : DFrame :=
  ⟨[("full_name"), ("team")],
   [rosterRowT ("John Smith") ("MIN"), rosterRowT ("John Smith") ("KC")]⟩

def stC1 : PdState := ⟨fun i => if i = 0 then dfC1 else ⟨[], []⟩, 1⟩

def udRowC1 : RRow :=
  ⟨pyStr ("John Smith"), Cell.pystr (pyStr ("WR")), Cell.pystr (pyStr ("KC")),
   Cell.pynum 5, Cell.pynum 6, Cell.pynum 7, Cell.pynum 8⟩

def rdC1 : RankingData := [(("ffpc"), []), (("underdog"), [RRowX.ok udRowC1])]

def dfC2 : DFrame :=
  ⟨[("full_name"), ("team")], [rosterRowT ("Justin Jefferson") ("MIN")]⟩

def stC2 : PdState := ⟨fun i => if i = 0 then dfC2 else ⟨[], []⟩, 1⟩

def udRowC2 : RRow :=
  ⟨pyStr ("Justin Jefferson"), Cell.pystr (pyStr ("WR")),
   Cell.pystr (pyStr ("MIN")), Cell.pynum 1, Cell.pynum 2, Cell.pynum 3,
   Cell.pynum 4⟩

def rdC2 : RankingData :=
  [(("ffpc"), [RRowX.bad]), (("underdog"), [RRowX.ok udRowC2])]

def ffRowC2 : RRow :=
  ⟨pyStr ("Justin Jefferson"), Cell.pystr (pyStr ("WR")),
   Cell.pystr (pyStr ("MIN")), Cell.pynum 9, Cell.pynum 10, Cell.pynum 11,
   Cell.pynum 12⟩

/-- One element of a `fantasy_positions` list: a string, or some other
(hashable) value, which can never equal a position code and makes
`', '.join(...)` raise. -/
inductive FPItem where
  | fstr : List Nat → FPItem
  | fother : FPItem
deriving DecidableEq

/-- The `fantasy_positions` field of a raw player record: missing, `None`,
a list, or a non-list value carrying its Python truthiness. -/
inductive FPVal where
  | missing : FPVal
  | fnone : FPVal
  | flist : List FPItem → FPVal
  | fother : Bool → FPVal
deriving DecidableEq

/-- A raw player record (string-valued fields are `none` when missing or
`None`; `safe_string` maps both to the empty string). -/
structure PlayerRec where
  status : Option (List Nat)
  full_name : Option (List Nat)
  first_name : Option (List Nat)
  last_name : Option (List Nat)
  fantasy_positions : FPVal
  height : Option (List Nat)
  weight : Option (List Nat)
  age : Option (List Nat)
  years_exp : Option (List Nat)
  college : Option (List Nat)
  position : Option (List Nat)
  team : Option (List Nat)
  active : Cell
deriving DecidableEq

/-- One entry of the `players_data` mapping: a proper dict or some other
value (rejected as a data error at the top of the loop body). -/
inductive PlayerInfo where
  | notDict : PlayerInfo
  | dict : PlayerRec → PlayerInfo
deriving DecidableEq

/-- `safe_string` applied to a possibly missing field. -/
def safeStr (v : Option (List Nat)) : List Nat :=
  v.getD []

/-- Python truthiness of the `fantasy_positions` value retrieved with a `[]`
default (`if not fantasy_positions`). -/
def fpFalsy : FPVal → Bool
  | FPVal.missing => true
  | FPVal.fnone => true
  | FPVal.flist l => l.isEmpty
  | FPVal.fother b => !b

/-- `isinstance(fantasy_positions, (list, tuple))`. -/
def fpIsList : FPVal → Bool
  | FPVal.flist _ => true
  | _ => false

/-- The list items of a list-valued `fantasy_positions` (else empty). -/
def fpItems : FPVal → List FPItem
  | FPVal.flist l => l
  | _ => []

/-- The string items of a position list (set members that can intersect the
valid-position set of strings). -/
def fpStrs (l : List FPItem) : List (List Nat) :=
  l.foldr (fun x acc => match x with | FPItem.fstr s => s :: acc | _ => acc) []

/-- All items are strings, so `', '.join(...)` succeeds. -/
def fpAllStr (l : List FPItem) : Bool :=
  l.all (fun x => match x with | FPItem.fstr _ => true | _ => false)

/-- The classification buckets of the player filter, one per
`filter_stats` counter. -/
inductive Bucket where
  | data_error : Bucket
  | inactive_status : Bucket
  | duplicate_name : Bucket
  | no_fantasy_position : Bucket
  | invalid_fantasy_position : Bucket
  | kept : Bucket
deriving DecidableEq

/-- The fallback valid-position set used when the league supplies none. -/
def defaultValidPositions : List (List Nat) :=
  [pyStr ("QB"), pyStr ("RB"), pyStr ("WR"), pyStr ("TE"), pyStr ("K"),
   pyStr ("DEF")]

/-- The valid-position set: the league's `roster_positions` when present,
else the default. -/
def validPositionsOf : Option (List (List Nat)) → List (List Nat)
  | some l => l
  | none => defaultValidPositions

/-- The filter chain of the `process_players_data` loop body
(sleeper_scraper.py lines 178-231) as a classification: non-dict records
are data errors; then the inactive-status, duplicate-name, falsy-positions,
non-list-or-no-intersection checks fire in source order; every surviving
record reaches the `kept` bump on line 231.  The string join on line 234
runs only after that bump, so its failure does not change this
classification — it adds a second count, handled in `processGo`. -/
def classify_player (valid : List (List Nat)) (p : PlayerInfo) : Bucket :=
  match p with
  | PlayerInfo.notDict => Bucket.data_error
  | PlayerInfo.dict r =>
    if pyLower (safeStr r.status) = pyStr ("inactive") then Bucket.inactive_status
    else if occursIn (pyStr ("duplicate")) (pyLower (safeStr r.full_name)) ||
        occursIn (pyStr ("duplicate")) (pyLower (safeStr r.first_name)) ||
        occursIn (pyStr ("duplicate")) (pyLower (safeStr r.last_name)) then
      Bucket.duplicate_name
    else if fpFalsy r.fantasy_positions then Bucket.no_fantasy_position
    else if !fpIsList r.fantasy_positions then Bucket.invalid_fantasy_position
    else if !(fpStrs (fpItems r.fantasy_positions)).any
        (fun s => valid.contains s) then Bucket.invalid_fantasy_position
    else Bucket.kept

/-- Whether the kept-player projection raises: `', '.join(...)` on line 234
raises TypeError when some position item is not a string. -/
def joinFails : PlayerInfo → Bool
  | PlayerInfo.notDict => false
  | PlayerInfo.dict r => !fpAllStr (fpItems r.fantasy_positions)

/-- The status mappings of `clean_status_value`. -/
def statusMappings : List (List Nat × List Nat) :=
  [(pyStr ("injured reserve"), pyStr ("IR")),
   (pyStr ("physically unable to perform"), pyStr ("PUP")),
   (pyStr ("practice squad"), pyStr ("PS")),
   (pyStr ("non-football injury"), pyStr ("NFI")),
   (pyStr ("suspended"), pyStr ("SUSP")),
   (pyStr ("commissioner exempt"), pyStr ("EXEMPT"))]

/-- `clean_status_value` (sleeper_scraper.py lines 120-145). -/
def clean_status_value (status : Option (List Nat)) : List Nat :=
  match status with
  | none => []
  | some s =>
    if s = [] then []
    else
      let t := pyStrip (pyLower s)
      match statusMappings.find? (fun p => p.1 == t) with
      | some p => p.2
      | none => t

/-- `safe_numeric` on a possibly missing string field. -/
def safe_numeric_opt : Option (List Nat) → Option ℚ
  | none => none
  | some s => safe_numeric_str s

/-- A numeric Option as a cell. -/
def optNum : Option ℚ → Cell
  | some q => Cell.pynum q
  | none => Cell.pynone

/-- A string field as a cell (`safe_string` semantics). -/
def optStrCell (v : Option (List Nat)) : Cell :=
  Cell.pystr (v.getD [])

/-- `sep.join(words)`. -/
def joinSep (sep : List Nat) : List (List Nat) → List Nat
  | [] => []
  | w :: [] => w
  | w :: x :: ws => w ++ sep ++ joinSep sep (x :: ws)

/-- The kept-player projection (the dict appended to `players_list`,
sleeper_scraper.py lines 246-261). -/
def projectPlayer (pid : List Nat) (r : PlayerRec) : Row :=
  [("player_id", optNum (safe_numeric_str pid)),
   ("full_name", optStrCell r.full_name),
   ("first_name", optStrCell r.first_name),
   ("last_name", optStrCell r.last_name),
   ("position", optStrCell r.position),
   ("team", optStrCell r.team),
   ("age", optNum (safe_numeric_opt r.age)),
   ("height_inches", optNum (parse_height r.height)),
   ("weight_lbs", optNum (safe_numeric_opt r.weight)),
   ("years_exp", optNum (safe_numeric_opt r.years_exp)),
   ("college", optStrCell r.college),
   ("status", Cell.pystr (clean_status_value r.status)),
   ("active", r.active),
   ("fantasy_positions",
     Cell.pystr (joinSep [44, 32] (fpStrs (fpItems r.fantasy_positions))))]

/-- The `filter_stats` counters. -/
structure FilterStats where
  inactive_status : Nat
  duplicate_name : Nat
  no_fantasy_position : Nat
  invalid_fantasy_position : Nat
  data_errors : Nat
  kept : Nat
deriving DecidableEq

/-- Increment the counter of one bucket. -/
def bumpStat (fs : FilterStats) : Bucket → FilterStats
  | Bucket.data_error => { fs with data_errors := fs.data_errors + 1 }
  | Bucket.inactive_status => { fs with inactive_status := fs.inactive_status + 1 }
  | Bucket.duplicate_name => { fs with duplicate_name := fs.duplicate_name + 1 }
  | Bucket.no_fantasy_position =>
    { fs with no_fantasy_position := fs.no_fantasy_position + 1 }
  | Bucket.invalid_fantasy_position =>
    { fs with invalid_fantasy_position := fs.invalid_fantasy_position + 1 }
  | Bucket.kept => { fs with kept := fs.kept + 1 }

/-- The projected rows a record contributes when kept (non-dicts never
reach the projection). -/
def projRows (pid : List Nat) : PlayerInfo → List Row
  | PlayerInfo.notDict => []
  | PlayerInfo.dict r => [projectPlayer pid r]

/-- The filter loop: bump the counter of each record's classification; a
kept record is appended as a projected row, unless the join raises, in
which case the record is skipped and the except block bumps `data_errors`
as well — the `kept` bump has already happened, so such a record is counted
twice; one bad record never stops the loop. -/
def processGo (valid : List (List Nat)) :
    List (List Nat × PlayerInfo) → FilterStats → List Row → FilterStats × List Row
  | [], fs, acc => (fs, acc)
  | (pid, p) :: rest, fs, acc =>
    if classify_player valid p == Bucket.kept then
      (if joinFails p then
        processGo valid rest
          (bumpStat (bumpStat fs Bucket.kept) Bucket.data_error) acc
      else
        processGo valid rest (bumpStat fs Bucket.kept) (acc ++ projRows pid p))
    else
      processGo valid rest (bumpStat fs (classify_player valid p)) acc

/-- The roster-table columns in projection order. -/
def rosterColumns : List String :=
  [("player_id"), ("full_name"), ("first_name"), ("last_name"), ("position"),
   ("team"), ("age"), ("height_inches"), ("weight_lbs"), ("years_exp"),
   ("college"), ("status"), ("active"), ("fantasy_positions")]

/-- `process_players_data` (sleeper_scraper.py lines 147-294): counters plus
the roster DataFrame (a frame with no columns when nothing survives, as
`pd.DataFrame([])` produces). -/
def process_players_data (valid : List (List Nat))
    (ps : List (List Nat × PlayerInfo)) : FilterStats × DFrame :=
  let pr := processGo valid ps ⟨0, 0, 0, 0, 0, 0⟩ []
  (pr.1, if pr.2.isEmpty then ⟨[], []⟩ else ⟨rosterColumns, pr.2⟩)

/-- Claim-side rule (1): status equals `inactive` case-insensitively. -/
def specRule1 : PlayerInfo → Bool
  | PlayerInfo.notDict => false
  | PlayerInfo.dict r => pyLower (safeStr r.status) == pyStr ("inactive")

/-- Claim-side rule (2): `duplicate` occurs in any of the three names,
case-insensitively. -/
def specRule2 : PlayerInfo → Bool
  | PlayerInfo.notDict => false
  | PlayerInfo.dict r =>
    occursIn (pyStr ("duplicate")) (pyLower (safeStr r.full_name)) ||
    occursIn (pyStr ("duplicate")) (pyLower (safeStr r.first_name)) ||
    occursIn (pyStr ("duplicate")) (pyLower (safeStr r.last_name))

/-- Claim-side rule (3): the fantasy-position value is empty (Python-empty,
i.e. falsy) or absent. -/
def specRule3 : PlayerInfo → Bool
  | PlayerInfo.notDict => false
  | PlayerInfo.dict r => fpFalsy r.fantasy_positions

/-- Claim-side rule (4): not list-like, or no intersection with the
valid-position set. -/
def specRule4 (valid : List (List Nat)) : PlayerInfo → Bool
  | PlayerInfo.notDict => false
  | PlayerInfo.dict r =>
    !fpIsList r.fantasy_positions ||
    !(fpStrs (fpItems r.fantasy_positions)).any (fun s => valid.contains s)

/-- Claim-side rule (5): an unexpected structural error while reading the
record (not a mapping, or a position item that breaks the string join). -/
def specRule5 : PlayerInfo → Bool
  | PlayerInfo.notDict => true
  | PlayerInfo.dict r => !fpAllStr (fpItems r.fantasy_positions)

/-- The claim's classifier: the five rejection rules tried in precedence
order, first match wins, everything else kept. -/
def specClassify (valid : List (List Nat)) (p : PlayerInfo) : Bucket :=
  if specRule1 p then Bucket.inactive_status
  else if specRule2 p then Bucket.duplicate_name
  else if specRule3 p then Bucket.no_fantasy_position
  else if specRule4 valid p then Bucket.invalid_fantasy_position
  else if specRule5 p then Bucket.data_error
  else Bucket.kept

/-- The amended classification chain as the code actually orders it: a
non-mapping record is a data error, rules (1)-(4) then fire in precedence,
and every surviving record is classified kept — the later join failure
counts such a record a second time instead of reclassifying it. -/
def specClassifyA (valid : List (List Nat)) (p : PlayerInfo) : Bucket :=
  match p with
  | PlayerInfo.notDict => Bucket.data_error
  | PlayerInfo.dict _ =>
    if specRule1 p then Bucket.inactive_status
    else if specRule2 p then Bucket.duplicate_name
    else if specRule3 p then Bucket.no_fantasy_position
    else if specRule4 valid p then Bucket.invalid_fantasy_position
    else Bucket.kept

/-- A record that passes every filter but whose position list holds a
non-string item: the set intersection passes on the string item, the
`kept` counter is bumped, then the string join raises. -/
def pJoinBad : PlayerInfo :=
  PlayerInfo.dict
    ⟨some (pyStr ("Active")), some (pyStr ("John Doe")), some (pyStr ("John")),
     some (pyStr ("Doe")),
     FPVal.flist [FPItem.fstr (pyStr ("QB")), FPItem.fother],
     none, none, none, none, none, none, none, Cell.pynone⟩

/-- A code point that every stage of the normalizer leaves alone: not an
ASCII capital, atomic under NFD, not a combining mark, and none of the
removed punctuation characters. -/
def tameChar (c : Nat) : Bool :=
  !(65 ≤ c && c ≤ 90) && (decompChar c == [c]) && !isMark c &&
    !(c == 46 || c == 45 || c == 39 || c == 96)

/-- The keys of the decomposition table. -/
def decompKeys : List Nat :=
  [224, 225, 232, 233, 237, 241, 243, 246, 250, 231]

/-- The empty heap used by witnesses. -/
def emptyState : PdState := ⟨fun _ => ⟨[], []⟩, 1⟩

/-- A simple similarity stand-in used by witnesses: 1 for equal normalized
names, 0 otherwise (symmetric, 1 for identical strings, within `[0,1]`). -/
def simTest : List Nat → List Nat → ℚ :=
  fun a b => if a = b then 1 else 0

/-- The `filter_stats` counter that belongs to one bucket. -/
def statOf (fs : FilterStats) : Bucket → Nat
  | Bucket.data_error => fs.data_errors
  | Bucket.inactive_status => fs.inactive_status
  | Bucket.duplicate_name => fs.duplicate_name
  | Bucket.no_fantasy_position => fs.no_fantasy_position
  | Bucket.invalid_fantasy_position => fs.invalid_fantasy_position
  | Bucket.kept => fs.kept

/-- The composed per-row write of the FFPC branch. -/
def ffpcWrite (r : RRow) (row : Row) : Row :=
  rowSet (rowSet (rowSet (rowSet row ("ffpc_adp") r.adp)
    ("ffpc_etr_rank") r.rank) ("ffpc_delta") r.delta) ("ffpc_pos_rank") r.pos_rank

/-- The composed per-row write of the Underdog branch. -/
def udWrite (r : RRow) (row : Row) : Row :=
  rowSet (rowSet (rowSet (rowSet row ("ud_adp") r.adp)
    ("ud_etr_rank") r.rank) ("ud_delta") r.delta) ("ud_pos_rank") r.pos_rank

/-- One source's four ranking cells of a row are all absent or all
present. -/
def srcOK (row : Row) (c1 c2 c3 c4 : String) : Prop :=
  (rowGet row c1 = Cell.pynone ∧ rowGet row c2 = Cell.pynone ∧
    rowGet row c3 = Cell.pynone ∧ rowGet row c4 = Cell.pynone) ∨
  (rowGet row c1 ≠ Cell.pynone ∧ rowGet row c2 ≠ Cell.pynone ∧
    rowGet row c3 ≠ Cell.pynone ∧ rowGet row c4 ≠ Cell.pynone)

/-- The all-or-nothing invariant of C5, per source, for one roster row. -/
def rowRankOK (row : Row) : Prop :=
  srcOK row ("ffpc_adp") ("ffpc_etr_rank") ("ffpc_delta") ("ffpc_pos_rank") ∧
  srcOK row ("ud_adp") ("ud_etr_rank") ("ud_delta") ("ud_pos_rank")

/-- A ranking row whose four metric cells are all present (a CSV row with no
missing metric values). -/
def valuedRow (r : RRow) : Prop :=
  r.adp ≠ Cell.pynone ∧ r.rank ≠ Cell.pynone ∧ r.delta ≠ Cell.pynone ∧
    r.pos_rank ≠ Cell.pynone

/-- A cell that is present (not `None`/NaN). -/
def cellPresent : Cell → Bool
  | Cell.pynone => false
  | _ => true

/-- Boolean form of `valuedRow`, trivially true on malformed rows. -/
def valuedRowB : RRowX → Bool
  | RRowX.ok r => cellPresent r.adp && cellPresent r.rank &&
      cellPresent r.delta && cellPresent r.pos_rank
  | RRowX.bad => true

/-- The statistics the concrete witness merge produces. -/
def mergeStatsC1 : Stats :=
  ((merge_ranking_data simZero stC1 0 rdC1).2.getD (0, [])).2

theorem defaultThreshold_eq : defaultThreshold = 0.8 := by
  rw [defaultThreshold, Rat.mk'_eq_divInt, Rat.divInt_eq_div]
  norm_num

lemma dropWhile_eq_self_head (s : List Nat)
    (h : ∀ c ∈ s.take 1, wsChar c = false) : s.dropWhile wsChar = s := by
  cases s with
  | nil => rfl
  | cons c t =>
    rw [List.dropWhile_cons, if_neg]
    simp [h c (by simp)]

lemma pyStrip_noWs (s : List Nat) (h : ∀ c ∈ s, wsChar c = false) :
    pyStrip s = s := by
  unfold pyStrip
  rw [dropWhile_eq_self_head s (fun c hc => h c (List.mem_of_mem_take hc)),
    dropWhile_eq_self_head s.reverse
      (fun c hc => h c (List.mem_reverse.1 (List.mem_of_mem_take hc))),
    List.reverse_reverse]

lemma mem_pyStrip (s : List Nat) (c : Nat) (h : c ∈ pyStrip s) : c ∈ s := by
  unfold pyStrip at h
  rw [List.mem_reverse] at h
  have h2 := List.dropWhile_sublist (l := List.dropWhile wsChar s |>.reverse) (p := wsChar)
  have h3 := h2.mem h
  rw [List.mem_reverse] at h3
  exact (List.dropWhile_sublist (l := s) (p := wsChar)).mem h3

lemma occursIn_single (p : Nat) (s : List Nat) :
    occursIn [p] s = false ↔ p ∉ s := by
  induction s with
  | nil => simp [occursIn, List.isPrefixOf]
  | cons c t ih =>
    simp only [occursIn, List.isPrefixOf, Bool.or_eq_false_iff, List.mem_cons]
    constructor
    · rintro ⟨h1, h2⟩ (rfl | hm)
      · simp at h1
      · exact (ih.1 h2) hm
    · intro h
      refine ⟨?_, ih.2 (fun hm => h (Or.inr hm))⟩
      simp only [Bool.and_eq_false_iff]
      left
      simp only [beq_eq_false_iff_ne, ne_eq]
      exact fun hpc => h (Or.inl hpc)

lemma pyReplaceF_not_occurs (old t : List Nat) :
    ∀ (fuel : Nat) (s : List Nat), s.length ≤ fuel →
      occursIn old s = false → pyReplaceF old t fuel s = s := by
  intro fuel
  induction fuel with
  | zero => intro s _ _; rfl
  | succ f ih =>
    intro s hl ho
    cases s with
    | nil => rfl
    | cons c r =>
      simp only [occursIn, Bool.or_eq_false_iff] at ho
      unfold pyReplaceF
      rw [if_neg (fun hc => by simp [ho.1] at hc)]
      have : r.length ≤ f := by simpa using Nat.le_of_succ_le_succ hl
      rw [ih r this ho.2]

lemma pyReplace_not_occurs (s old t : List Nat) (h : occursIn old s = false) :
    pyReplace s old t = s :=
  pyReplaceF_not_occurs old t s.length s le_rfl h

lemma pyReplace_single_not_mem (s : List Nat) (p : Nat) (t : List Nat)
    (h : p ∉ s) : pyReplace s [p] t = s :=
  pyReplace_not_occurs s [p] t ((occursIn_single p s).2 h)

lemma mem_pyReplaceF (old t : List Nat) :
    ∀ (fuel : Nat) (s : List Nat) (c : Nat),
      c ∈ pyReplaceF old t fuel s → c ∈ s ∨ c ∈ t := by
  intro fuel
  induction fuel with
  | zero => intro s c h; exact Or.inl h
  | succ f ih =>
    intro s c h
    cases s with
    | nil => simp [pyReplaceF] at h
    | cons d r =>
      unfold pyReplaceF at h
      by_cases hc : old ≠ [] ∧ old.isPrefixOf (d :: r)
      · rw [if_pos hc] at h
        rcases List.mem_append.1 h with h1 | h1
        · exact Or.inr h1
        · rcases ih _ _ h1 with h2 | h2
          · exact Or.inl (List.mem_of_mem_drop h2)
          · exact Or.inr h2
      · rw [if_neg hc] at h
        rcases List.mem_cons.1 h with rfl | h1
        · exact Or.inl (List.mem_cons_self _ _)
        · rcases ih _ _ h1 with h2 | h2
          · exact Or.inl (List.mem_cons_of_mem _ h2)
          · exact Or.inr h2

lemma mem_pyReplace (s old t : List Nat) (c : Nat) (h : c ∈ pyReplace s old t) :
    c ∈ s ∨ c ∈ t :=
  mem_pyReplaceF old t s.length s c h

lemma mem_pyReplaceF_single (p : Nat) (t : List Nat) :
    ∀ (fuel : Nat) (s : List Nat) (c : Nat), s.length ≤ fuel →
      c ∈ pyReplaceF [p] t fuel s → c ∈ t ∨ (c ∈ s ∧ c ≠ p) := by
  intro fuel
  induction fuel with
  | zero =>
    intro s c hl h
    rw [List.length_eq_zero.1 (Nat.le_zero.1 hl)] at h
    simp [pyReplaceF] at h
  | succ f ih =>
    intro s c hl h
    cases s with
    | nil => simp [pyReplaceF] at h
    | cons d r =>
      unfold pyReplaceF at h
      by_cases hc : ([p] : List Nat) ≠ [] ∧ ([p] : List Nat).isPrefixOf (d :: r)
      · have hpd : p = d := by
          have := hc.2
          simp [List.isPrefixOf] at this
          exact this
        rw [if_pos hc] at h
        rcases List.mem_append.1 h with h1 | h1
        · exact Or.inl h1
        · have hr : c ∈ pyReplaceF [p] t f r := by simpa using h1
          rcases ih r c (by simpa using Nat.le_of_succ_le_succ hl) hr with h2 | h2
          · exact Or.inl h2
          · exact Or.inr ⟨List.mem_cons_of_mem _ h2.1, h2.2⟩
      · rw [if_neg hc] at h
        have hpd : p ≠ d := by
          intro hpd
          exact hc ⟨by simp, by simp [List.isPrefixOf, hpd]⟩
        rcases List.mem_cons.1 h with rfl | h1
        · exact Or.inr ⟨List.mem_cons_self _ _, fun hcp => hpd hcp.symm⟩
        · rcases ih r c (by simpa using Nat.le_of_succ_le_succ hl) h1 with h2 | h2
          · exact Or.inl h2
          · exact Or.inr ⟨List.mem_cons_of_mem _ h2.1, h2.2⟩

lemma mem_pyReplace_single (s : List Nat) (p : Nat) (t : List Nat) (c : Nat)
    (h : c ∈ pyReplace s [p] t) : c ∈ t ∨ (c ∈ s ∧ c ≠ p) :=
  mem_pyReplaceF_single p t s.length s c le_rfl h

lemma splitSepAux_no_sep (sep : Nat) (s : List Nat) :
    ∀ acc, (∀ c ∈ s, c ≠ sep) → splitSepAux sep s acc = [acc.reverse ++ s] := by
  induction s with
  | nil => intro acc _; simp [splitSepAux]
  | cons c t ih =>
    intro acc h
    simp only [splitSepAux]
    rw [if_neg (h c (by simp))]
    rw [ih (c :: acc) (fun d hd => h d (by simp [hd]))]
    simp

lemma splitSepAux_mid (sep : Nat) (b : List Nat) (hb : ∀ c ∈ b, c ≠ sep)
    (a : List Nat) (ha : ∀ c ∈ a, c ≠ sep) :
    ∀ acc, splitSepAux sep (a ++ sep :: b) acc = [acc.reverse ++ a, b] := by
  induction a with
  | nil =>
    intro acc
    simp only [List.nil_append, splitSepAux]
    rw [if_pos trivial, splitSepAux_no_sep sep b [] hb]
    simp
  | cons c t ih =>
    intro acc
    simp only [List.cons_append, splitSepAux, List.append_eq]
    rw [if_neg (ha c (by simp))]
    rw [ih (fun d hd => ha d (by simp [hd])) (c :: acc)]
    simp

lemma splitSep_two (sep : Nat) (a b : List Nat) (ha : ∀ c ∈ a, c ≠ sep)
    (hb : ∀ c ∈ b, c ≠ sep) : splitSep sep (a ++ sep :: b) = [a, b] := by
  unfold splitSep
  rw [splitSepAux_mid sep b hb a ha []]
  simp

lemma splitWsAux_words (s : List Nat) :
    ∀ acc, (∀ c ∈ acc, wsChar c = false) →
      ∀ w ∈ splitWsAux s acc, w ≠ [] ∧ ∀ c ∈ w, wsChar c = false := by
  induction s with
  | nil =>
    intro acc hacc w hw
    simp only [splitWsAux] at hw
    by_cases h : acc = []
    · simp [h] at hw
    · rw [if_neg h] at hw
      simp only [List.mem_singleton] at hw
      subst hw
      refine ⟨fun hrev => h (by simpa using hrev), fun c hc => hacc c ?_⟩
      exact List.mem_reverse.1 hc
  | cons c t ih =>
    intro acc hacc w hw
    simp only [splitWsAux] at hw
    by_cases hc : wsChar c
    · rw [if_pos hc] at hw
      by_cases h : acc = []
      · rw [if_pos h] at hw
        exact ih [] (by simp) w hw
      · rw [if_neg h] at hw
        rcases List.mem_cons.1 hw with rfl | hw2
        · refine ⟨fun hrev => h (by simpa using hrev), fun d hd => hacc d ?_⟩
          exact List.mem_reverse.1 hd
        · exact ih [] (by simp) w hw2
    · rw [if_neg hc] at hw
      refine ih (c :: acc) ?_ w hw
      intro d hd
      rcases List.mem_cons.1 hd with rfl | hd2
      · simpa using hc
      · exact hacc d hd2

lemma pySplitWs_words (s : List Nat) :
    ∀ w ∈ pySplitWs s, w ≠ [] ∧ ∀ c ∈ w, wsChar c = false :=
  splitWsAux_words s [] (by simp)

lemma joinSp_cons_eq (w : List Nat) (ws : List (List Nat)) :
    ∃ rest, joinSp (w :: ws) = w ++ rest := by
  cases ws with
  | nil => exact ⟨[], by simp [joinSp]⟩
  | cons x t => exact ⟨32 :: joinSp (x :: t), rfl⟩

lemma joinSp_ne_nil (w : List Nat) (ws : List (List Nat)) (hw : w ≠ []) :
    joinSp (w :: ws) ≠ [] := by
  obtain ⟨rest, hr⟩ := joinSp_cons_eq w ws
  rw [hr]
  simp [hw]

lemma joinSp_head (ws : List (List Nat))
    (h : ∀ w ∈ ws, w ≠ [] ∧ ∀ c ∈ w, wsChar c = false) :
    ∀ c ∈ (joinSp ws).take 1, wsChar c = false := by
  cases ws with
  | nil => simp [joinSp]
  | cons w t =>
    obtain ⟨hne, hns⟩ := h w (by simp)
    obtain ⟨d, w2, rfl⟩ := List.exists_cons_of_ne_nil hne
    obtain ⟨rest, hr⟩ := joinSp_cons_eq (d :: w2) t
    rw [hr]
    intro c hc
    simp only [List.cons_append, List.take_succ_cons, List.take_zero,
      List.mem_singleton] at hc
    subst hc
    exact hns c (by simp)

lemma joinSp_last (ws : List (List Nat))
    (h : ∀ w ∈ ws, w ≠ [] ∧ ∀ c ∈ w, wsChar c = false) :
    ∀ c ∈ (joinSp ws).reverse.take 1, wsChar c = false := by
  induction ws with
  | nil => simp [joinSp]
  | cons w t ih =>
    cases t with
    | nil =>
      intro c hc
      obtain ⟨_, hns⟩ := h w (by simp)
      exact hns c (List.mem_reverse.1 (List.mem_of_mem_take hc))
    | cons x t2 =>
      intro c hc
      have hx : joinSp (x :: t2) ≠ [] :=
        joinSp_ne_nil x t2 (h x (by simp)).1
      have hj : joinSp (w :: x :: t2) = w ++ 32 :: joinSp (x :: t2) := rfl
      rw [hj, List.reverse_append, List.reverse_cons] at hc
      rw [List.append_assoc] at hc
      have hrev : (joinSp (x :: t2)).reverse ≠ [] := by simpa using hx
      obtain ⟨e, r2, hr⟩ := List.exists_cons_of_ne_nil hrev
      rw [hr] at hc
      simp only [List.cons_append, List.take_succ_cons, List.take_zero,
        List.mem_singleton] at hc
      subst hc
      refine ih (fun v hv => h v (by simp [hv])) c ?_
      rw [hr]
      simp

lemma pyStrip_collapseWs (s : List Nat) :
    pyStrip (collapseWs s) = collapseWs s := by
  unfold pyStrip collapseWs
  rw [dropWhile_eq_self_head _ (joinSp_head _ (pySplitWs_words s)),
    dropWhile_eq_self_head _ (joinSp_last _ (pySplitWs_words s)),
    List.reverse_reverse]

lemma splitWsAux_word_prefix (w : List Nat) (hw : ∀ c ∈ w, wsChar c = false) :
    ∀ (rest acc : List Nat),
      splitWsAux (w ++ rest) acc = splitWsAux rest (w.reverse ++ acc) := by
  induction w with
  | nil => intro rest acc; simp
  | cons c t ih =>
    intro rest acc
    simp only [List.cons_append, splitWsAux, List.append_eq]
    rw [if_neg (by simp [hw c (by simp)])]
    rw [ih (fun d hd => hw d (by simp [hd])) rest (c :: acc)]
    simp

lemma pySplitWs_joinSp (ws : List (List Nat))
    (h : ∀ w ∈ ws, w ≠ [] ∧ ∀ c ∈ w, wsChar c = false) :
    pySplitWs (joinSp ws) = ws := by
  induction ws with
  | nil => rfl
  | cons w t ih =>
    obtain ⟨hne, hns⟩ := h w (by simp)
    cases t with
    | nil =>
      show splitWsAux (joinSp [w]) [] = [w]
      have hw : joinSp [w] = w ++ [] := by simp [joinSp]
      rw [hw, splitWsAux_word_prefix w hns [] []]
      simp [splitWsAux, hne]
    | cons x t2 =>
      show splitWsAux (joinSp (w :: x :: t2)) [] = w :: x :: t2
      have hj : joinSp (w :: x :: t2) = w ++ 32 :: joinSp (x :: t2) := rfl
      rw [hj, splitWsAux_word_prefix w hns _ []]
      simp only [splitWsAux, List.append_nil]
      rw [if_pos (by simp [wsChar]), if_neg (by simpa using hne)]
      rw [List.reverse_reverse]
      congr 1
      exact ih (fun v hv => h v (by simp [hv]))

lemma collapseWs_collapseWs (s : List Nat) :
    collapseWs (collapseWs s) = collapseWs s := by
  show joinSp (pySplitWs (joinSp (pySplitWs s))) = joinSp (pySplitWs s)
  rw [pySplitWs_joinSp _ (pySplitWs_words s)]

lemma mem_suffixFold (l : List (List Nat)) :
    ∀ (s : List Nat) (c : Nat),
      c ∈ l.foldl (fun cur suf =>
        if suf.isSuffixOf cur then pyStrip (cur.take (cur.length - suf.length))
        else cur) s → c ∈ s := by
  induction l with
  | nil => intro s c h; exact h
  | cons suf rest ih =>
    intro s c h
    simp only [List.foldl_cons] at h
    have h2 := ih _ c h
    by_cases hs : suf.isSuffixOf s
    · rw [if_pos hs] at h2
      exact List.mem_of_mem_take (mem_pyStrip _ c h2)
    · rwa [if_neg hs] at h2

lemma mem_stripSuffixes (s : List Nat) (c : Nat) (h : c ∈ stripSuffixes s) :
    c ∈ s :=
  mem_suffixFold suffixList s c h

lemma mem_stripPunct (s : List Nat) (c : Nat) (h : c ∈ stripPunct s) :
    c = 32 ∨ (c ∈ s ∧ c ≠ 46 ∧ c ≠ 45 ∧ c ≠ 39 ∧ c ≠ 96) := by
  unfold stripPunct at h
  rcases mem_pyReplace_single _ 96 _ c h with h1 | ⟨h1, h96⟩
  · simp at h1
  rcases mem_pyReplace_single _ 39 _ c h1 with h2 | ⟨h2, h39⟩
  · simp at h2
  rcases mem_pyReplace_single _ 45 _ c h2 with h3 | ⟨h3, h45⟩
  · simp at h3
    exact Or.inl h3
  rcases mem_pyReplace_single _ 46 _ c h3 with h4 | ⟨h4, h46⟩
  · simp at h4
  · exact Or.inr ⟨h4, h46, h45, h39, h96⟩

lemma mem_replFold (l : List (List Nat × List Nat)) :
    ∀ (s : List Nat) (c : Nat),
      c ∈ l.foldl (fun cur p => pyReplace cur p.1 p.2) s →
      c ∈ s ∨ ∃ p ∈ l, c ∈ p.2 := by
  induction l with
  | nil => intro s c h; exact Or.inl h
  | cons q rest ih =>
    intro s c h
    simp only [List.foldl_cons] at h
    rcases ih _ c h with h1 | ⟨p, hp, hc⟩
    · rcases mem_pyReplace _ _ _ c h1 with h2 | h2
      · exact Or.inl h2
      · exact Or.inr ⟨q, by simp, h2⟩
    · exact Or.inr ⟨p, by simp [hp], hc⟩

lemma mem_applyReplacements (s : List Nat) (c : Nat)
    (h : c ∈ applyReplacements s) :
    c ∈ s ∨ ∃ p ∈ nicknameTable, c ∈ p.2 :=
  mem_replFold nicknameTable s c h

lemma mem_splitWsAux (s : List Nat) :
    ∀ (acc : List Nat) (w : List Nat), w ∈ splitWsAux s acc →
      ∀ c ∈ w, c ∈ acc ∨ c ∈ s := by
  induction s with
  | nil =>
    intro acc w hw c hc
    simp only [splitWsAux] at hw
    by_cases h : acc = []
    · simp [h] at hw
    · rw [if_neg h] at hw
      simp only [List.mem_singleton] at hw
      subst hw
      exact Or.inl (List.mem_reverse.1 hc)
  | cons d t ih =>
    intro acc w hw c hc
    simp only [splitWsAux] at hw
    by_cases hd : wsChar d
    · rw [if_pos hd] at hw
      by_cases h : acc = []
      · rw [if_pos h] at hw
        rcases ih [] w hw c hc with h1 | h1
        · simp at h1
        · exact Or.inr (by simp [h1])
      · rw [if_neg h] at hw
        rcases List.mem_cons.1 hw with rfl | hw2
        · exact Or.inl (List.mem_reverse.1 hc)
        · rcases ih [] w hw2 c hc with h1 | h1
          · simp at h1
          · exact Or.inr (by simp [h1])
    · rw [if_neg hd] at hw
      rcases ih (d :: acc) w hw c hc with h1 | h1
      · rcases List.mem_cons.1 h1 with rfl | h2
        · exact Or.inr (by simp)
        · exact Or.inl h2
      · exact Or.inr (by simp [h1])

lemma mem_joinSp (ws : List (List Nat)) (c : Nat) (h : c ∈ joinSp ws) :
    c = 32 ∨ ∃ w ∈ ws, c ∈ w := by
  induction ws with
  | nil => simp [joinSp] at h
  | cons w t ih =>
    cases t with
    | nil => exact Or.inr ⟨w, by simp, h⟩
    | cons x t2 =>
      have hj : joinSp (w :: x :: t2) = w ++ 32 :: joinSp (x :: t2) := rfl
      rw [hj] at h
      rcases List.mem_append.1 h with h1 | h1
      · exact Or.inr ⟨w, by simp, h1⟩
      · rcases List.mem_cons.1 h1 with rfl | h2
        · exact Or.inl rfl
        · rcases ih h2 with h3 | ⟨v, hv, hc⟩
          · exact Or.inl h3
          · exact Or.inr ⟨v, by simp [hv], hc⟩

lemma mem_collapseWs (s : List Nat) (c : Nat) (h : c ∈ collapseWs s) :
    c = 32 ∨ c ∈ s := by
  rcases mem_joinSp _ c h with h1 | ⟨w, hw, hc⟩
  · exact Or.inl h1
  · rcases mem_splitWsAux s [] w hw c hc with h2 | h2
    · simp at h2
    · exact Or.inr h2

lemma tameChar_spec (c : Nat) (h : tameChar c = true) :
    (65 ≤ c && c ≤ 90) = false ∧ decompChar c = [c] ∧ isMark c = false ∧
      c ≠ 46 ∧ c ≠ 45 ∧ c ≠ 39 ∧ c ≠ 96 := by
  simp only [tameChar, Bool.and_eq_true, Bool.not_eq_true', beq_iff_eq,
    Bool.or_eq_false_iff, beq_eq_false_iff_ne, ne_eq] at h
  tauto

lemma decompChar_not_key (c : Nat) (h : c ∉ decompKeys) : decompChar c = [c] := by
  have hb : ∀ k ∈ decompKeys, (c == k) = false := by
    intro k hk
    simp only [beq_eq_false_iff_ne, ne_eq]
    exact fun hck => h (hck ▸ hk)
  unfold decompChar decompTable
  simp only [List.lookup, hb 224 (by decide), hb 225 (by decide),
    hb 232 (by decide), hb 233 (by decide), hb 237 (by decide),
    hb 241 (by decide), hb 243 (by decide), hb 246 (by decide),
    hb 250 (by decide), hb 231 (by decide)]
  rfl

lemma decompChar_out (c d : Nat) (hd : d ∈ decompChar c) :
    (decompChar d = [d] ∧ isMark d = false ∧ (d = c ∨ (97 ≤ d ∧ d ≤ 122))) ∨
      isMark d = true := by
  by_cases hk : c ∈ decompKeys
  · have key_out : ∀ k ∈ decompKeys, ∀ e ∈ decompChar k,
        (decompChar e = [e] ∧ isMark e = false ∧ (97 ≤ e ∧ e ≤ 122)) ∨
          isMark e = true := by decide
    rcases key_out c hk d hd with ⟨hf, hm, hr⟩ | hm
    · exact Or.inl ⟨hf, hm, Or.inr hr⟩
    · exact Or.inr hm
  · rw [decompChar_not_key c hk] at hd
    simp only [List.mem_singleton] at hd
    subst hd
    by_cases hm : isMark d = true
    · exact Or.inr hm
    · exact Or.inl ⟨decompChar_not_key d hk, by simpa using hm, Or.inl rfl⟩

lemma nfdStrip_out (s : List Nat) (d : Nat) (hd : d ∈ nfdStrip s) :
    decompChar d = [d] ∧ isMark d = false ∧ (d ∈ s ∨ (97 ≤ d ∧ d ≤ 122)) := by
  unfold nfdStrip at hd
  have hmark : isMark d = false := by
    have := List.of_mem_filter hd
    simpa using this
  obtain ⟨c, hc, hdc⟩ := List.mem_flatMap.1 (List.mem_of_mem_filter hd)
  rcases decompChar_out c d hdc with ⟨hfix, _, horig⟩ | hm
  · refine ⟨hfix, hmark, ?_⟩
    rcases horig with rfl | hr
    · exact Or.inl hc
    · exact Or.inr hr
  · rw [hm] at hmark
    simp at hmark

lemma nfdStrip_fixed (s : List Nat)
    (h : ∀ c ∈ s, decompChar c = [c] ∧ isMark c = false) : nfdStrip s = s := by
  unfold nfdStrip
  have h1 : s.flatMap decompChar = s := by
    induction s with
    | nil => rfl
    | cons c t ih =>
      rw [List.flatMap_cons, (h c (by simp)).1,
        ih (fun d hd => h d (by simp [hd]))]
      rfl
  rw [h1, List.filter_eq_self.2]
  intro c hc
  simp [(h c hc).2]

lemma pyLowerChar_not_upper (c : Nat) :
    (65 ≤ pyLowerChar c && pyLowerChar c ≤ 90) = false := by
  unfold pyLowerChar
  split <;> simp <;> omega

lemma pyLower_fixed (s : List Nat) (h : ∀ c ∈ s, (65 ≤ c && c ≤ 90) = false) :
    pyLower s = s := by
  unfold pyLower
  induction s with
  | nil => rfl
  | cons c t ih =>
    rw [List.map_cons, ih (fun d hd => h d (by simp [hd]))]
    congr 1
    unfold pyLowerChar
    rw [if_neg]
    intro hcon
    have := h c (by simp)
    simp at this
    omega

lemma stripSuffixes_fixed (s : List Nat)
    (h : ∀ suf ∈ suffixList, suf.isSuffixOf s = false) : stripSuffixes s = s := by
  have e1 := h (pyStr (" jr.")) (by simp [suffixList])
  have e2 := h (pyStr (" jr")) (by simp [suffixList])
  have e3 := h (pyStr (" sr.")) (by simp [suffixList])
  have e4 := h (pyStr (" sr")) (by simp [suffixList])
  have e5 := h (pyStr (" iii")) (by simp [suffixList])
  have e6 := h (pyStr (" ii")) (by simp [suffixList])
  have e7 := h (pyStr (" iv")) (by simp [suffixList])
  have e8 := h (pyStr (" v")) (by simp [suffixList])
  simp only [stripSuffixes, suffixList, List.foldl_cons, List.foldl_nil,
    e1, e2, e3, e4, e5, e6, e7, e8, Bool.false_eq_true, if_false]

lemma applyReplacements_fixed (s : List Nat)
    (h : ∀ p ∈ nicknameTable, occursIn p.1 s = false) :
    applyReplacements s = s := by
  have e1 := pyReplace_not_occurs s (pyStr ("kenneth")) (pyStr ("ken"))
    (h (pyStr ("kenneth"), pyStr ("ken")) (by simp [nicknameTable]))
  have e2 := pyReplace_not_occurs s (pyStr ("michael")) (pyStr ("mike"))
    (h (pyStr ("michael"), pyStr ("mike")) (by simp [nicknameTable]))
  have e3 := pyReplace_not_occurs s (pyStr ("robert")) (pyStr ("bob"))
    (h (pyStr ("robert"), pyStr ("bob")) (by simp [nicknameTable]))
  have e4 := pyReplace_not_occurs s (pyStr ("william")) (pyStr ("will"))
    (h (pyStr ("william"), pyStr ("will")) (by simp [nicknameTable]))
  have e5 := pyReplace_not_occurs s (pyStr ("christopher")) (pyStr ("chris"))
    (h (pyStr ("christopher"), pyStr ("chris")) (by simp [nicknameTable]))
  have e6 := pyReplace_not_occurs s (pyStr ("matthew")) (pyStr ("matt"))
    (h (pyStr ("matthew"), pyStr ("matt")) (by simp [nicknameTable]))
  have e7 := pyReplace_not_occurs s (pyStr ("anthony")) (pyStr ("tony"))
    (h (pyStr ("anthony"), pyStr ("tony")) (by simp [nicknameTable]))
  have e8 := pyReplace_not_occurs s (pyStr ("joshua")) (pyStr ("josh"))
    (h (pyStr ("joshua"), pyStr ("josh")) (by simp [nicknameTable]))
  have e9 := pyReplace_not_occurs s (pyStr ("marquise")) (pyStr ("hollywood"))
    (h (pyStr ("marquise"), pyStr ("hollywood")) (by simp [nicknameTable]))
  simp only [applyReplacements, nicknameTable, List.foldl_cons, List.foldl_nil]
  rw [e1, e2, e3, e4, e5, e6, e7, e8, e9]

lemma stripPunct_fixed (s : List Nat) (h46 : 46 ∉ s) (h45 : 45 ∉ s)
    (h39 : 39 ∉ s) (h96 : 96 ∉ s) : stripPunct s = s := by
  unfold stripPunct
  rw [pyReplace_single_not_mem s 46 _ h46, pyReplace_single_not_mem s 45 _ h45,
    pyReplace_single_not_mem s 39 _ h39, pyReplace_single_not_mem s 96 _ h96]

lemma normalize_chars (n : List Nat) (c : Nat)
    (h : c ∈ normalize_player_name n) : tameChar c = true := by
  unfold normalize_player_name at h
  by_cases hn : n = []
  · simp [hn] at h
  rw [if_neg hn] at h
  rcases mem_collapseWs _ c h with rfl | h1
  · decide
  rcases mem_applyReplacements _ c h1 with h2 | ⟨p, hp, hc⟩
  · rcases mem_stripPunct _ c h2 with rfl | ⟨h3, h46, h45, h39, h96⟩
    · decide
    have h4 := mem_stripSuffixes _ c h3
    obtain ⟨hfix, hmark, horigin⟩ := nfdStrip_out _ c h4
    have hupper : (65 ≤ c && c ≤ 90) = false := by
      rcases horigin with h5 | h5
      · have h6 := mem_pyStrip _ c h5
        obtain ⟨d, _, rfl⟩ := List.mem_map.1 h6
        exact pyLowerChar_not_upper d
      · simp only [Bool.and_eq_false_iff, decide_eq_false_iff_not, not_le]
        omega
    unfold tameChar
    rw [hupper, hfix, hmark]
    simp [h46, h45, h39, h96]
  · have hall : ∀ q ∈ nicknameTable, ∀ x ∈ q.2, tameChar x = true := by decide
    exact hall p hp c hc

/-- C4, counterexample: the normalizer is not idempotent.  For `"a jr jr"`
one pass strips a single trailing `" jr"` (the suffix loop removes at most
one occurrence of each listed token), and a second pass strips another. -/
theorem normalize_player_name_not_idempotent :
    normalize_player_name (normalize_player_name (pyStr ("a jr jr"))) ≠
      normalize_player_name (pyStr ("a jr jr")) := by decide

/-- C4 (amended): applying `normalize_player_name` twice agrees with
applying it once for every name whose normalized form neither ends with one
of the suffix tokens nor contains a nickname-substitution key; in general a
second application can strip a further suffix or substitute again
(counterexample `"a jr jr"`). -/
theorem normalize_player_name_idem_cond (n : List Nat)
    (h1 : ∀ suf ∈ suffixList,
      suf.isSuffixOf (normalize_player_name n) = false)
    (h2 : ∀ p ∈ nicknameTable,
      occursIn p.1 (normalize_player_name n) = false) :
    normalize_player_name (normalize_player_name n) =
      normalize_player_name n := by
  have unfoldEq : ∀ m, normalize_player_name m =
      if m = [] then []
      else collapseWs (applyReplacements (stripPunct (stripSuffixes
        (nfdStrip (pyStrip (pyLower m)))))) := fun _ => rfl
  by_cases hn : n = []
  · simp [hn, normalize_player_name]
  by_cases hm : normalize_player_name n = []
  · rw [hm]
    simp [normalize_player_name]
  have mbody : normalize_player_name n =
      collapseWs (applyReplacements (stripPunct (stripSuffixes
        (nfdStrip (pyStrip (pyLower n)))))) := by
    rw [unfoldEq n, if_neg hn]
  have htame := fun c hc => tameChar_spec c (normalize_chars n c hc)
  have hlower : pyLower (normalize_player_name n) = normalize_player_name n :=
    pyLower_fixed _ (fun c hc => (htame c hc).1)
  have hstrip : pyStrip (normalize_player_name n) = normalize_player_name n := by
    rw [mbody]
    exact pyStrip_collapseWs _
  have hnfd : nfdStrip (normalize_player_name n) = normalize_player_name n :=
    nfdStrip_fixed _ (fun c hc => ⟨(htame c hc).2.1, (htame c hc).2.2.1⟩)
  have hsuf : stripSuffixes (normalize_player_name n) =
      normalize_player_name n := stripSuffixes_fixed _ h1
  have hpunct : stripPunct (normalize_player_name n) =
      normalize_player_name n := by
    apply stripPunct_fixed
    · exact fun hmem => (htame 46 hmem).2.2.2.1 rfl
    · exact fun hmem => (htame 45 hmem).2.2.2.2.1 rfl
    · exact fun hmem => (htame 39 hmem).2.2.2.2.2.1 rfl
    · exact fun hmem => (htame 96 hmem).2.2.2.2.2.2 rfl
  have hrepl : applyReplacements (normalize_player_name n) =
      normalize_player_name n := applyReplacements_fixed _ h2
  have hcoll : collapseWs (normalize_player_name n) =
      normalize_player_name n := by
    rw [mbody]
    exact collapseWs_collapseWs _
  rw [unfoldEq (normalize_player_name n), if_neg hm, hlower, hstrip, hnfd,
    hsuf, hpunct, hrepl, hcoll]

/-- Witness for the amended C4 theorem at the name `"patrick mahomes"`. -/
theorem normalize_player_name_idem_cond_witness :
    (∀ suf ∈ suffixList,
      suf.isSuffixOf (normalize_player_name (pyStr ("patrick mahomes"))) = false) ∧
    (∀ p ∈ nicknameTable,
      occursIn p.1 (normalize_player_name (pyStr ("patrick mahomes"))) = false) ∧
    normalize_player_name (normalize_player_name (pyStr ("patrick mahomes"))) =
      normalize_player_name (pyStr ("patrick mahomes")) :=
  ⟨by decide, by decide,
    normalize_player_name_idem_cond (pyStr ("patrick mahomes")) (by decide)
      (by decide)⟩

/-- C10: with an empty roster frame or no ranking data supplied,
`merge_ranking_data` returns its input object unchanged together with an
empty statistics mapping that holds no key at all. -/
theorem merge_ranking_data_trivial (sim : List Nat → List Nat → ℚ)
    (σ : PdState) (ref : Nat) (rd : RankingData)
    (h : pdEmpty (σ.store ref) = true ∨ rd = []) :
    merge_ranking_data sim σ ref rd = (σ, some (ref, [])) ∧
      ∀ k : String, List.lookup k ([] : Stats) = none := by
  refine ⟨?_, fun k => rfl⟩
  rcases h with h | h <;> simp [merge_ranking_data, h]

/-- Witness for C10 at an empty roster frame. -/
theorem merge_ranking_data_trivial_witness :
    merge_ranking_data simZero emptyState 0 rdC1 = (emptyState, some (0, [])) ∧
      ∀ k : String, List.lookup k ([] : Stats) = none :=
  merge_ranking_data_trivial simZero emptyState 0 rdC1 (Or.inl (by decide))

lemma fuzzyGo_spec (th : ℚ) (sims : List ℚ) :
    ∀ (i0 : Nat) (b0 : Option Nat) (s0 : ℚ),
      (fuzzyGo th sims i0 (b0, s0) = (b0, s0) ∧
        ∀ j, j < sims.length → ¬(s0 < sims.getD j 0 ∧ th ≤ sims.getD j 0)) ∨
      (∃ k, k < sims.length ∧
        (fuzzyGo th sims i0 (b0, s0)).1 = some (i0 + k) ∧
        (fuzzyGo th sims i0 (b0, s0)).2 = sims.getD k 0 ∧
        th ≤ sims.getD k 0 ∧ s0 < sims.getD k 0 ∧
        (∀ j, j < sims.length → th ≤ sims.getD j 0 → s0 < sims.getD j 0 →
          sims.getD j 0 ≤ sims.getD k 0) ∧
        (∀ j, j < k → th ≤ sims.getD j 0 → s0 < sims.getD j 0 →
          sims.getD j 0 < sims.getD k 0)) := by
  induction sims with
  | nil =>
    intro i0 b0 s0
    left
    exact ⟨rfl, by simp⟩
  | cons q rest ih =>
    intro i0 b0 s0
    by_cases hc : s0 < q ∧ th ≤ q
    · have hgo : fuzzyGo th (q :: rest) i0 (b0, s0) =
          fuzzyGo th rest (i0 + 1) (some i0, q) := by
        show (if s0 < q ∧ th ≤ q then fuzzyGo th rest (i0 + 1) (some i0, q)
          else fuzzyGo th rest (i0 + 1) (b0, s0)) = _
        rw [if_pos hc]
      rcases ih (i0 + 1) (some i0) q with ⟨heq, hall⟩ |
        ⟨k, hk, h1, h2, h3, h4, h5, h6⟩
      · right
        refine ⟨0, by simp, ?_, ?_, by simpa using hc.2, by simpa using hc.1,
          ?_, by simp⟩
        · rw [hgo, heq]
          simp
        · rw [hgo, heq]
          simp
        · intro j hj hth hs
          cases j with
          | zero => simp
          | succ j2 =>
            simp only [List.getD_cons_succ] at hth hs
            simp only [List.getD_cons_succ, List.getD_cons_zero]
            by_contra hgt
            push_neg at hgt
            exact hall j2 (by simpa using hj) ⟨hgt, hth⟩
      · right
        refine ⟨k + 1, by simpa using hk, ?_, ?_, by simpa using h3, ?_, ?_, ?_⟩
        · rw [hgo, h1]
          congr 1
          omega
        · rw [hgo]
          simpa using h2
        · simp only [List.getD_cons_succ]
          exact lt_trans hc.1 h4
        · intro j hj hth hs
          cases j with
          | zero =>
            simp only [List.getD_cons_zero] at hth hs ⊢
            simp only [List.getD_cons_succ]
            exact le_of_lt h4
          | succ j2 =>
            simp only [List.getD_cons_succ] at hth hs ⊢
            rcases le_or_lt (rest.getD j2 0) q with hle | hlt
            · exact le_of_lt (lt_of_le_of_lt hle h4)
            · exact h5 j2 (by simpa using hj) hth hlt
        · intro j hj hth hs
          cases j with
          | zero =>
            simp only [List.getD_cons_zero] at hth hs ⊢
            simp only [List.getD_cons_succ]
            exact h4
          | succ j2 =>
            simp only [List.getD_cons_succ] at hth hs ⊢
            rcases le_or_lt (rest.getD j2 0) q with hle | hlt
            · exact lt_of_le_of_lt hle h4
            · exact h6 j2 (by omega) hth hlt
    · have hgo : fuzzyGo th (q :: rest) i0 (b0, s0) =
          fuzzyGo th rest (i0 + 1) (b0, s0) := by
        show (if s0 < q ∧ th ≤ q then fuzzyGo th rest (i0 + 1) (some i0, q)
          else fuzzyGo th rest (i0 + 1) (b0, s0)) = _
        rw [if_neg hc]
      rcases ih (i0 + 1) b0 s0 with ⟨heq, hall⟩ |
        ⟨k, hk, h1, h2, h3, h4, h5, h6⟩
      · left
        refine ⟨by rw [hgo, heq], ?_⟩
        intro j hj
        cases j with
        | zero => simpa using hc
        | succ j2 =>
          simp only [List.getD_cons_succ]
          exact hall j2 (by simpa using hj)
      · right
        refine ⟨k + 1, by simpa using hk, ?_, ?_, by simpa using h3,
          by simpa using h4, ?_, ?_⟩
        · rw [hgo, h1]
          congr 1
          omega
        · rw [hgo]
          simpa using h2
        · intro j hj hth hs
          cases j with
          | zero =>
            simp only [List.getD_cons_zero] at hth hs
            exact absurd ⟨hs, hth⟩ hc
          | succ j2 =>
            simp only [List.getD_cons_succ] at hth hs ⊢
            exact h5 j2 (by simpa using hj) hth hs
        · intro j hj hth hs
          cases j with
          | zero =>
            simp only [List.getD_cons_zero] at hth hs
            exact absurd ⟨hs, hth⟩ hc
          | succ j2 =>
            simp only [List.getD_cons_succ] at hth hs ⊢
            exact h6 j2 (by omega) hth hs

/-- C7: for every fuzzy-match invocation with a positive threshold (the only
threshold the program uses is the default 0.8), a selected roster index has
a similarity at or above the threshold that is maximal among all candidates
at or above the threshold, earlier candidates at or above the threshold are
strictly worse (ties keep the first-seen candidate), and the returned score
is that index's similarity; when no candidate reaches the threshold, no
index is selected. -/
theorem fuzzy_match_players_selects_first_max (sim : List Nat → List Nat → ℚ)
    (ranking_name : List Nat) (players_df : DFrame) (threshold : ℚ)
    (hth : 0 < threshold) :
    (∀ i, (fuzzy_match_players sim ranking_name players_df threshold).1 = some i →
      i < (simsOf sim ranking_name players_df).length ∧
      threshold ≤ (simsOf sim ranking_name players_df).getD i 0 ∧
      (fuzzy_match_players sim ranking_name players_df threshold).2 =
        PySnd.num ((simsOf sim ranking_name players_df).getD i 0) ∧
      (∀ j, j < (simsOf sim ranking_name players_df).length →
        threshold ≤ (simsOf sim ranking_name players_df).getD j 0 →
        (simsOf sim ranking_name players_df).getD j 0 ≤
          (simsOf sim ranking_name players_df).getD i 0) ∧
      (∀ j, j < i →
        threshold ≤ (simsOf sim ranking_name players_df).getD j 0 →
        (simsOf sim ranking_name players_df).getD j 0 <
          (simsOf sim ranking_name players_df).getD i 0)) ∧
    ((fuzzy_match_players sim ranking_name players_df threshold).1 = none →
      ∀ j, j < (simsOf sim ranking_name players_df).length →
        (simsOf sim ranking_name players_df).getD j 0 < threshold) := by
  have hfst : (fuzzy_match_players sim ranking_name players_df threshold).1 =
      (fuzzyGo threshold (simsOf sim ranking_name players_df) 0 (none, 0)).1 :=
    rfl
  have hsnd : (fuzzy_match_players sim ranking_name players_df threshold).2 =
      (match (fuzzyGo threshold (simsOf sim ranking_name players_df) 0
          (none, 0)).1 with
        | some _ =>
          PySnd.num (fuzzyGo threshold (simsOf sim ranking_name players_df) 0
            (none, 0)).2
        | none => PySnd.tup (none, 0)) := rfl
  rcases fuzzyGo_spec threshold (simsOf sim ranking_name players_df) 0 none 0
    with ⟨heq, hall⟩ | ⟨k, hk, h1, h2, h3, h4, h5, h6⟩
  · constructor
    · intro i hi
      rw [hfst, heq] at hi
      simp at hi
    · intro _ j hj
      by_contra hge
      push_neg at hge
      exact hall j hj ⟨lt_of_lt_of_le hth hge, hge⟩
  · rw [Nat.zero_add] at h1
    constructor
    · intro i hi
      rw [hfst, h1] at hi
      have hik : k = i := by simpa using hi
      subst hik
      refine ⟨hk, h3, ?_, ?_, ?_⟩
      · rw [hsnd, h1, h2]
      · intro j hj hthj
        exact h5 j hj hthj (lt_of_lt_of_le hth hthj)
      · intro j hj hthj
        exact h6 j hj hthj (lt_of_lt_of_le hth hthj)
    · intro hnone
      rw [hfst, h1] at hnone
      simp at hnone

/-- Witness for C7 at the default threshold over a concrete roster. -/
theorem fuzzy_match_players_selects_first_max_witness :
    (0 : ℚ) < defaultThreshold ∧
    ((∀ i, (fuzzy_match_players simTest (pyStr ("John Smith")) dfC1
        defaultThreshold).1 = some i →
      i < (simsOf simTest (pyStr ("John Smith")) dfC1).length ∧
      defaultThreshold ≤ (simsOf simTest (pyStr ("John Smith")) dfC1).getD i 0 ∧
      (fuzzy_match_players simTest (pyStr ("John Smith")) dfC1
        defaultThreshold).2 =
        PySnd.num ((simsOf simTest (pyStr ("John Smith")) dfC1).getD i 0) ∧
      (∀ j, j < (simsOf simTest (pyStr ("John Smith")) dfC1).length →
        defaultThreshold ≤ (simsOf simTest (pyStr ("John Smith")) dfC1).getD j 0 →
        (simsOf simTest (pyStr ("John Smith")) dfC1).getD j 0 ≤
          (simsOf simTest (pyStr ("John Smith")) dfC1).getD i 0) ∧
      (∀ j, j < i →
        defaultThreshold ≤ (simsOf simTest (pyStr ("John Smith")) dfC1).getD j 0 →
        (simsOf simTest (pyStr ("John Smith")) dfC1).getD j 0 <
          (simsOf simTest (pyStr ("John Smith")) dfC1).getD i 0)) ∧
    ((fuzzy_match_players simTest (pyStr ("John Smith")) dfC1
        defaultThreshold).1 = none →
      ∀ j, j < (simsOf simTest (pyStr ("John Smith")) dfC1).length →
        (simsOf simTest (pyStr ("John Smith")) dfC1).getD j 0 <
          defaultThreshold)) :=
  ⟨by decide,
    fuzzy_match_players_selects_first_max simTest (pyStr ("John Smith")) dfC1
      defaultThreshold (by decide)⟩

/-- C3 (code behavior at the failing input): when no candidate reaches the
threshold, `fuzzy_match_players` returns `(None, (None, 0))` — by
conditional-expression precedence the whole conditional is the second tuple
component, so the score slot holds the nested tuple `(None, 0)` rather than
the number 0 stated by the contract. -/
theorem fuzzy_match_players_none_nested :
    fuzzy_match_players simZero (pyStr ("anybody")) dfC1 defaultThreshold =
      (none, PySnd.tup (none, 0)) ∧
    PySnd.tup (none, 0) ≠ PySnd.num 0 := by
  constructor
  · decide
  · decide

lemma bumpStat_statOf (fs : FilterStats) (b2 b : Bucket) :
    statOf (bumpStat fs b2) b = statOf fs b + (if b2 == b then 1 else 0) := by
  cases b2 <;> cases b <;> simp [bumpStat, statOf]

lemma processGo_count (valid : List (List Nat)) (b : Bucket) :
    ∀ (ps : List (List Nat × PlayerInfo)) (fs : FilterStats) (acc : List Row),
      statOf (processGo valid ps fs acc).1 b =
        statOf fs b + ps.countP (fun q => classify_player valid q.2 == b) +
          (if b = Bucket.data_error then
            ps.countP (fun q =>
              classify_player valid q.2 == Bucket.kept && joinFails q.2)
          else 0) := by
  intro ps
  induction ps with
  | nil => intro fs acc; simp [processGo]
  | cons q rest ih =>
    intro fs acc
    obtain ⟨pid, p⟩ := q
    rw [List.countP_cons, List.countP_cons]
    by_cases hk : (classify_player valid p == Bucket.kept) = true
    · have hcl : classify_player valid p = Bucket.kept := by simpa using hk
      by_cases hj : joinFails p = true
      · have hstep : processGo valid ((pid, p) :: rest) fs acc =
            processGo valid rest
              (bumpStat (bumpStat fs Bucket.kept) Bucket.data_error) acc := by
          simp only [processGo, hk, hj, if_true]
        rw [hstep, ih, bumpStat_statOf, bumpStat_statOf, hcl, hj]
        cases b <;> simp <;> omega
      · have hj2 : joinFails p = false := by simpa using hj
        have hstep : processGo valid ((pid, p) :: rest) fs acc =
            processGo valid rest (bumpStat fs Bucket.kept)
              (acc ++ projRows pid p) := by
          simp only [processGo, hk, hj2, Bool.false_eq_true, if_false, if_true]
        rw [hstep, ih, bumpStat_statOf, hcl, hj2]
        cases b <;> simp <;> omega
    · have hk2 : (classify_player valid p == Bucket.kept) = false := by
        simpa using hk
      have hstep : processGo valid ((pid, p) :: rest) fs acc =
          processGo valid rest (bumpStat fs (classify_player valid p)) acc := by
        simp only [processGo, hk2, Bool.false_eq_true, if_false]
      rw [hstep, ih, bumpStat_statOf, hk2]
      cases b <;> simp <;> omega

lemma processGo_len (valid : List (List Nat)) :
    ∀ (ps : List (List Nat × PlayerInfo)) (fs : FilterStats) (acc : List Row),
      (processGo valid ps fs acc).2.length =
        acc.length + ps.countP (fun q =>
          classify_player valid q.2 == Bucket.kept && !(joinFails q.2)) := by
  intro ps
  induction ps with
  | nil => intro fs acc; simp [processGo]
  | cons q rest ih =>
    intro fs acc
    obtain ⟨pid, p⟩ := q
    rw [List.countP_cons]
    by_cases hk : (classify_player valid p == Bucket.kept) = true
    · have hcl : classify_player valid p = Bucket.kept := by simpa using hk
      by_cases hj : joinFails p = true
      · have hstep : processGo valid ((pid, p) :: rest) fs acc =
            processGo valid rest
              (bumpStat (bumpStat fs Bucket.kept) Bucket.data_error) acc := by
          simp only [processGo, hk, hj, if_true]
        rw [hstep, ih]
        simp [hcl, hj]
      · have hj2 : joinFails p = false := by simpa using hj
        have hstep : processGo valid ((pid, p) :: rest) fs acc =
            processGo valid rest (bumpStat fs Bucket.kept)
              (acc ++ projRows pid p) := by
          simp only [processGo, hk, hj2, Bool.false_eq_true, if_false, if_true]
        have hone : (projRows pid p).length = 1 := by
          cases p with
          | notDict => simp [classify_player] at hcl
          | dict r => rfl
        rw [hstep, ih, List.length_append, hone]
        simp [hcl, hj2]
        omega
    · have hk2 : (classify_player valid p == Bucket.kept) = false := by
        simpa using hk
      have hstep : processGo valid ((pid, p) :: rest) fs acc =
          processGo valid rest (bumpStat fs (classify_player valid p)) acc := by
        simp only [processGo, hk2, Bool.false_eq_true, if_false]
      rw [hstep, ih]
      simp [hk2]

lemma classify_eq_specA (valid : List (List Nat)) (p : PlayerInfo) :
    classify_player valid p = specClassifyA valid p := by
  cases p with
  | notDict => rfl
  | dict r =>
    simp only [classify_player, specClassifyA, specRule1, specRule2, specRule3,
      specRule4, beq_iff_eq]
    by_cases c1 : pyLower (safeStr r.status) = pyStr ("inactive") <;>
      by_cases c2 : (occursIn (pyStr ("duplicate")) (pyLower (safeStr r.full_name)) ||
        occursIn (pyStr ("duplicate")) (pyLower (safeStr r.first_name)) ||
        occursIn (pyStr ("duplicate")) (pyLower (safeStr r.last_name))) = true <;>
      by_cases c3 : fpFalsy r.fantasy_positions = true <;>
      by_cases c4 : fpIsList r.fantasy_positions = true <;>
      by_cases c5 : ((fpStrs (fpItems r.fantasy_positions)).any
        (fun s => valid.contains s)) = true <;>
      simp [c1, c2, c3, c4, c5]

/-- C6, counterexample: the filter does not count every player into exactly
one bucket.  A record passing every filter whose position list holds a
non-string item is counted twice: `kept` is bumped on line 231, then the
string join on line 234 raises and the except block on line 263 bumps
`data_errors`; the record is also missing from the output rows.  The
claim's own classifier assigns it the single bucket `data_error`. -/
theorem process_players_data_two_buckets :
    specClassify defaultValidPositions pJoinBad = Bucket.data_error ∧
    (process_players_data defaultValidPositions
      [(pyStr ("1"), pJoinBad)]).1.kept = 1 ∧
    (process_players_data defaultValidPositions
      [(pyStr ("1"), pJoinBad)]).1.data_errors = 1 ∧
    (process_players_data defaultValidPositions
      [(pyStr ("1"), pJoinBad)]).2.rows = [] := by
  decide

/-- C6, amended: the filter chain applies the rejection rules in fixed
precedence — non-mapping record, inactive status, duplicate in a name,
empty-or-absent positions, non-list or no intersection with the valid set —
with the first matching rule winning and every surviving record classified
kept.  Each bucket counter counts the records so classified, except that
`data_errors` additionally counts every kept record whose position list
holds a non-string item (the kept bump precedes the join that raises), so
such a record lands in two buckets; exactly the kept records whose join
succeeds appear in the output, and the loop continues past every error. -/
theorem process_players_data_buckets :
    (∀ (valid : List (List Nat)) (p : PlayerInfo),
      classify_player valid p = specClassifyA valid p) ∧
    (∀ (valid : List (List Nat)) (ps : List (List Nat × PlayerInfo)) (b : Bucket),
      statOf (process_players_data valid ps).1 b =
        ps.countP (fun q => classify_player valid q.2 == b) +
          (if b = Bucket.data_error then
            ps.countP (fun q =>
              classify_player valid q.2 == Bucket.kept && joinFails q.2)
          else 0)) ∧
    (∀ (valid : List (List Nat)) (ps : List (List Nat × PlayerInfo)),
      (processGo valid ps ⟨0, 0, 0, 0, 0, 0⟩ []).2.length =
        ps.countP (fun q =>
          classify_player valid q.2 == Bucket.kept && !(joinFails q.2))) := by
  refine ⟨classify_eq_specA, ?_, ?_⟩
  · intro valid ps b
    have h0 : (process_players_data valid ps).1 =
        (processGo valid ps ⟨0, 0, 0, 0, 0, 0⟩ []).1 := rfl
    rw [h0, processGo_count]
    cases b <;> simp [statOf]
  · intro valid ps
    rw [processGo_len]
    simp

lemma rowGet_cons (p : String × Cell) (t : Row) (c : String) :
    rowGet (p :: t) c = if p.1 == c then p.2 else rowGet t c := by
  simp only [rowGet, List.find?]
  rcases Bool.eq_false_or_eq_true (p.1 == c) with h | h <;> simp [h]

lemma rowGet_mapSet_eq (r : Row) (c : String) (v : Cell)
    (h : rowHas r c = true) :
    rowGet (r.map (fun q => if q.1 == c then (q.1, v) else q)) c = v := by
  induction r with
  | nil => simp [rowHas] at h
  | cons p t ih =>
    rcases Bool.eq_false_or_eq_true (p.1 == c) with hp | hp
    · simp only [List.map_cons]
      rw [if_pos hp, rowGet_cons]
      simp [hp]
    · have ht : rowHas t c = true := by
        have h2 := h
        simp only [rowHas, List.any_cons, hp, Bool.false_or] at h2
        exact h2
      simp only [List.map_cons]
      rw [if_neg (by simp [hp]), rowGet_cons, if_neg (by simp [hp])]
      exact ih ht

lemma rowGet_mapSet_ne (r : Row) (c c2 : String) (v : Cell) (h : c2 ≠ c) :
    rowGet (r.map (fun q => if q.1 == c then (q.1, v) else q)) c2 =
      rowGet r c2 := by
  induction r with
  | nil => rfl
  | cons p t ih =>
    rcases Bool.eq_false_or_eq_true (p.1 == c) with hp | hp
    · have hpc : p.1 = c := by simpa using hp
      have hne : (p.1 == c2) = false := by
        simp only [beq_eq_false_iff_ne, ne_eq, hpc]
        exact fun hc => h hc.symm
      simp only [List.map_cons]
      rw [if_pos hp, rowGet_cons, rowGet_cons, ih]
      simp [hne]
    · simp only [List.map_cons]
      rw [if_neg (by simp [hp]), rowGet_cons, rowGet_cons, ih]

lemma rowGet_append_of_not_has (r1 r2 : Row) (c : String)
    (h : rowHas r1 c = false) :
    rowGet (r1 ++ r2) c = rowGet r2 c := by
  induction r1 with
  | nil => rfl
  | cons p t ih =>
    simp only [rowHas, List.any_cons, Bool.or_eq_false_iff] at h
    simp only [List.cons_append]
    rw [rowGet_cons, if_neg (by simp [h.1])]
    exact ih h.2

lemma rowGet_append_single_ne (r : Row) (c c2 : String) (v : Cell)
    (h : c2 ≠ c) : rowGet (r ++ [(c, v)]) c2 = rowGet r c2 := by
  induction r with
  | nil =>
    simp only [List.nil_append]
    rw [rowGet_cons]
    rw [if_neg (show ¬((c == c2) = true) from by
      simp only [beq_iff_eq]
      exact fun hc => h hc.symm)]
  | cons p t ih =>
    simp only [List.cons_append]
    rw [rowGet_cons, rowGet_cons, ih]

lemma rowGet_rowSet_self (r : Row) (c : String) (v : Cell) :
    rowGet (rowSet r c v) c = v := by
  unfold rowSet
  rcases Bool.eq_false_or_eq_true (rowHas r c) with h | h
  · rw [if_pos h]
    exact rowGet_mapSet_eq r c v h
  · rw [if_neg (by simp [h])]
    rw [rowGet_append_of_not_has r _ c h]
    rw [rowGet_cons]
    simp

lemma rowGet_rowSet_ne (r : Row) (c c2 : String) (v : Cell) (h : c2 ≠ c) :
    rowGet (rowSet r c v) c2 = rowGet r c2 := by
  unfold rowSet
  rcases Bool.eq_false_or_eq_true (rowHas r c) with hh | hh
  · rw [if_pos hh]
    exact rowGet_mapSet_ne r c c2 v h
  · rw [if_neg (by simp [hh])]
    exact rowGet_append_single_ne r c c2 v h

lemma rowGet_rowDrop_ne (row : Row) (c nn : String) (h : c ≠ nn) :
    rowGet (rowDrop row nn) c = rowGet row c := by
  induction row with
  | nil => rfl
  | cons p t ih =>
    unfold rowDrop
    simp only [List.filter_cons]
    unfold rowDrop at ih
    rcases Bool.eq_false_or_eq_true (p.1 == nn) with hp | hp
    · have hpc : p.1 = nn := by simpa using hp
      rw [if_neg (show ¬((p.1 != nn) = true) from by
        simp only [bne_iff_ne, ne_eq, not_not]
        exact hpc)]
      rw [rowGet_cons, if_neg (show ¬((p.1 == c) = true) from by
        simp only [beq_iff_eq, hpc]
        exact fun hc => h hc.symm)]
      exact ih
    · rw [if_pos (show (p.1 != nn) = true from by
        simp only [bne_iff_ne, ne_eq]
        simpa using hp)]
      rw [rowGet_cons, rowGet_cons, ih]

lemma updateAt_length (rows : List Row) (i : Nat) (f : Row → Row) :
    (updateAt rows i f).length = rows.length := by
  induction rows generalizing i with
  | nil => rfl
  | cons r t ih =>
    cases i with
    | zero => rfl
    | succ j => simp [updateAt, ih]

lemma updateAt_getD_ne (rows : List Row) (i j : Nat) (f : Row → Row)
    (h : j ≠ i) : (updateAt rows i f).getD j [] = rows.getD j [] := by
  induction rows generalizing i j with
  | nil => rfl
  | cons r t ih =>
    cases i with
    | zero =>
      cases j with
      | zero => omega
      | succ j2 => simp [updateAt]
    | succ i2 =>
      cases j with
      | zero => simp [updateAt]
      | succ j2 =>
        simp only [updateAt, List.getD_cons_succ]
        exact ih i2 j2 (by omega)

lemma updateAt_getD_self (rows : List Row) (i : Nat) (f : Row → Row)
    (h : i < rows.length) :
    (updateAt rows i f).getD i [] = f (rows.getD i []) := by
  induction rows generalizing i with
  | nil => simp at h
  | cons r t ih =>
    cases i with
    | zero => rfl
    | succ i2 =>
      simp only [updateAt, List.getD_cons_succ]
      exact ih i2 (by simpa using h)

lemma mem_updateAt (rows : List Row) (i : Nat) (f : Row → Row) (row : Row)
    (h : row ∈ updateAt rows i f) :
    row ∈ rows ∨ ∃ r0 ∈ rows, row = f r0 := by
  induction rows generalizing i with
  | nil => simp [updateAt] at h
  | cons r t ih =>
    cases i with
    | zero =>
      rcases List.mem_cons.1 h with rfl | h2
      · exact Or.inr ⟨r, by simp, rfl⟩
      · exact Or.inl (by simp [h2])
    | succ i2 =>
      rcases List.mem_cons.1 h with rfl | h2
      · exact Or.inl (by simp)
      · rcases ih i2 h2 with h3 | ⟨r0, hr0, hrw⟩
        · exact Or.inl (by simp [h3])
        · exact Or.inr ⟨r0, by simp [hr0], hrw⟩

lemma updateAt_updateAt (rows : List Row) (i : Nat) (f g : Row → Row) :
    updateAt (updateAt rows i f) i g = updateAt rows i (fun r => g (f r)) := by
  induction rows generalizing i with
  | nil => rfl
  | cons r t ih =>
    cases i with
    | zero => rfl
    | succ i2 => simp [updateAt, ih]

lemma ffpcApply_rows (df : DFrame) (i : Nat) (r : RRow) :
    (ffpcApply df i r).rows = updateAt df.rows i (ffpcWrite r) := by
  simp only [ffpcApply, dfLocSet, updateAt_updateAt]
  rfl

lemma udApply_rows (df : DFrame) (i : Nat) (r : RRow) :
    (udApply df i r).rows = updateAt df.rows i (udWrite r) := by
  simp only [udApply, dfLocSet, updateAt_updateAt]
  rfl

lemma ffpcApply_cols (df : DFrame) (i : Nat) (r : RRow) :
    (ffpcApply df i r).cols = df.cols := rfl

lemma udApply_cols (df : DFrame) (i : Nat) (r : RRow) :
    (udApply df i r).cols = df.cols := rfl

lemma rowRankOK_of_all_pynone (row : Row)
    (h : ∀ c ∈ rankingColumns, rowGet row c = Cell.pynone) : rowRankOK row := by
  constructor <;> left <;>
    exact ⟨h _ (by decide), h _ (by decide), h _ (by decide), h _ (by decide)⟩

lemma rowGet_ffpcWrite (r : RRow) (row : Row) (c : String) :
    rowGet (ffpcWrite r row) c =
      if c = ("ffpc_pos_rank") then r.pos_rank
      else if c = ("ffpc_delta") then r.delta
      else if c = ("ffpc_etr_rank") then r.rank
      else if c = ("ffpc_adp") then r.adp
      else rowGet row c := by
  unfold ffpcWrite
  by_cases h1 : c = ("ffpc_pos_rank")
  · rw [if_pos h1, h1, rowGet_rowSet_self]
  rw [if_neg h1, rowGet_rowSet_ne _ _ _ _ h1]
  by_cases h2 : c = ("ffpc_delta")
  · rw [if_pos h2, h2, rowGet_rowSet_self]
  rw [if_neg h2, rowGet_rowSet_ne _ _ _ _ h2]
  by_cases h3 : c = ("ffpc_etr_rank")
  · rw [if_pos h3, h3, rowGet_rowSet_self]
  rw [if_neg h3, rowGet_rowSet_ne _ _ _ _ h3]
  by_cases h4 : c = ("ffpc_adp")
  · rw [if_pos h4, h4, rowGet_rowSet_self]
  rw [if_neg h4, rowGet_rowSet_ne _ _ _ _ h4]

lemma rowGet_udWrite (r : RRow) (row : Row) (c : String) :
    rowGet (udWrite r row) c =
      if c = ("ud_pos_rank") then r.pos_rank
      else if c = ("ud_delta") then r.delta
      else if c = ("ud_etr_rank") then r.rank
      else if c = ("ud_adp") then r.adp
      else rowGet row c := by
  unfold udWrite
  by_cases h1 : c = ("ud_pos_rank")
  · rw [if_pos h1, h1, rowGet_rowSet_self]
  rw [if_neg h1, rowGet_rowSet_ne _ _ _ _ h1]
  by_cases h2 : c = ("ud_delta")
  · rw [if_pos h2, h2, rowGet_rowSet_self]
  rw [if_neg h2, rowGet_rowSet_ne _ _ _ _ h2]
  by_cases h3 : c = ("ud_etr_rank")
  · rw [if_pos h3, h3, rowGet_rowSet_self]
  rw [if_neg h3, rowGet_rowSet_ne _ _ _ _ h3]
  by_cases h4 : c = ("ud_adp")
  · rw [if_pos h4, h4, rowGet_rowSet_self]
  rw [if_neg h4, rowGet_rowSet_ne _ _ _ _ h4]

lemma rowRankOK_ffpcWrite (row : Row) (r : RRow) (hv : valuedRow r)
    (h : rowRankOK row) : rowRankOK (ffpcWrite r row) := by
  obtain ⟨hv1, hv2, hv3, hv4⟩ := hv
  obtain ⟨_, h2⟩ := h
  constructor
  · right
    rw [rowGet_ffpcWrite, rowGet_ffpcWrite, rowGet_ffpcWrite, rowGet_ffpcWrite]
    rw [if_neg (by decide), if_neg (by decide), if_neg (by decide), if_pos rfl]
    rw [if_neg (by decide), if_neg (by decide), if_pos rfl]
    rw [if_neg (by decide), if_pos rfl]
    rw [if_pos rfl]
    exact ⟨hv1, hv2, hv3, hv4⟩
  · have e1 : rowGet (ffpcWrite r row) ("ud_adp") = rowGet row ("ud_adp") := by
      rw [rowGet_ffpcWrite, if_neg (by decide), if_neg (by decide),
        if_neg (by decide), if_neg (by decide)]
    have e2 : rowGet (ffpcWrite r row) ("ud_etr_rank") =
        rowGet row ("ud_etr_rank") := by
      rw [rowGet_ffpcWrite, if_neg (by decide), if_neg (by decide),
        if_neg (by decide), if_neg (by decide)]
    have e3 : rowGet (ffpcWrite r row) ("ud_delta") = rowGet row ("ud_delta") := by
      rw [rowGet_ffpcWrite, if_neg (by decide), if_neg (by decide),
        if_neg (by decide), if_neg (by decide)]
    have e4 : rowGet (ffpcWrite r row) ("ud_pos_rank") =
        rowGet row ("ud_pos_rank") := by
      rw [rowGet_ffpcWrite, if_neg (by decide), if_neg (by decide),
        if_neg (by decide), if_neg (by decide)]
    unfold srcOK at h2 ⊢
    rw [e1, e2, e3, e4]
    exact h2

lemma rowRankOK_udWrite (row : Row) (r : RRow) (hv : valuedRow r)
    (h : rowRankOK row) : rowRankOK (udWrite r row) := by
  obtain ⟨hv1, hv2, hv3, hv4⟩ := hv
  obtain ⟨h1, _⟩ := h
  constructor
  · have e1 : rowGet (udWrite r row) ("ffpc_adp") = rowGet row ("ffpc_adp") := by
      rw [rowGet_udWrite, if_neg (by decide), if_neg (by decide),
        if_neg (by decide), if_neg (by decide)]
    have e2 : rowGet (udWrite r row) ("ffpc_etr_rank") =
        rowGet row ("ffpc_etr_rank") := by
      rw [rowGet_udWrite, if_neg (by decide), if_neg (by decide),
        if_neg (by decide), if_neg (by decide)]
    have e3 : rowGet (udWrite r row) ("ffpc_delta") =
        rowGet row ("ffpc_delta") := by
      rw [rowGet_udWrite, if_neg (by decide), if_neg (by decide),
        if_neg (by decide), if_neg (by decide)]
    have e4 : rowGet (udWrite r row) ("ffpc_pos_rank") =
        rowGet row ("ffpc_pos_rank") := by
      rw [rowGet_udWrite, if_neg (by decide), if_neg (by decide),
        if_neg (by decide), if_neg (by decide)]
    unfold srcOK at h1 ⊢
    rw [e1, e2, e3, e4]
    exact h1
  · right
    rw [rowGet_udWrite, rowGet_udWrite, rowGet_udWrite, rowGet_udWrite]
    rw [if_neg (by decide), if_neg (by decide), if_neg (by decide), if_pos rfl]
    rw [if_neg (by decide), if_neg (by decide), if_pos rfl]
    rw [if_neg (by decide), if_pos rfl]
    rw [if_pos rfl]
    exact ⟨hv1, hv2, hv3, hv4⟩

lemma rowRankOK_rowDrop (row : Row) (h : rowRankOK row) :
    rowRankOK (rowDrop row ("normalized_name")) := by
  obtain ⟨h1, h2⟩ := h
  constructor <;> unfold srcOK at * <;>
    rw [rowGet_rowDrop_ne _ _ _ (by decide), rowGet_rowDrop_ne _ _ _ (by decide),
      rowGet_rowDrop_ne _ _ _ (by decide), rowGet_rowDrop_ne _ _ _ (by decide)]
  · exact h1
  · exact h2

lemma setConstFold_rows (cs : List String) (df : DFrame) :
    (cs.foldl (fun d c => dfSetConst d c Cell.pynone) df).rows =
      df.rows.map (fun r => cs.foldl (fun r2 c => rowSet r2 c Cell.pynone) r) := by
  induction cs generalizing df with
  | nil => simp
  | cons c rest ih =>
    simp only [List.foldl_cons]
    rw [ih]
    show (df.rows.map (fun r => rowSet r c Cell.pynone)).map _ = _
    rw [List.map_map]
    rfl

lemma rowFold_get_not_mem (cs : List String) (r : Row) (c : String)
    (hc : c ∉ cs) :
    rowGet (cs.foldl (fun r2 c2 => rowSet r2 c2 Cell.pynone) r) c =
      rowGet r c := by
  induction cs generalizing r with
  | nil => rfl
  | cons c0 rest ih =>
    simp only [List.foldl_cons]
    rw [ih _ (fun h => hc (by simp [h]))]
    exact rowGet_rowSet_ne r c0 c Cell.pynone (fun h => hc (by simp [h]))

lemma rowFold_get_mem (cs : List String) (r : Row) (c : String) (hc : c ∈ cs) :
    rowGet (cs.foldl (fun r2 c2 => rowSet r2 c2 Cell.pynone) r) c =
      Cell.pynone := by
  induction cs generalizing r with
  | nil => simp at hc
  | cons c0 rest ih =>
    simp only [List.foldl_cons]
    by_cases hmem : c ∈ rest
    · exact ih _ hmem
    · have hc0 : c = c0 := by
        rcases List.mem_cons.1 hc with h | h
        · exact h
        · exact absurd h hmem
      subst hc0
      rw [rowFold_get_not_mem rest _ c hmem]
      exact rowGet_rowSet_self r c Cell.pynone

lemma mergePrep_rank_pynone (df : DFrame) (row : Row)
    (hrow : row ∈ (mergePrep df).rows) (c : String) (hc : c ∈ rankingColumns) :
    rowGet row c = Cell.pynone := by
  unfold mergePrep at hrow
  rw [setConstFold_rows] at hrow
  obtain ⟨r0, _, rfl⟩ := List.mem_map.1 hrow
  exact rowFold_get_mem rankingColumns r0 c hc

lemma lookup_mem (l : RankingData) (k : String) (v : RTable)
    (h : List.lookup k l = some v) : (k, v) ∈ l := by
  induction l with
  | nil => simp [List.lookup] at h
  | cons p t ih =>
    simp only [List.lookup] at h
    rcases Bool.eq_false_or_eq_true (k == p.1) with hk | hk
    · rw [hk] at h
      have hkp : k = p.1 := by simpa using hk
      have hv : v = p.2 := by simpa using h.symm
      subst hkp
      subst hv
      exact by simp
    · rw [hk] at h
      simp only at h
      exact List.mem_cons_of_mem _ (ih h)

lemma inv_ffpcApply (df : DFrame) (i : Nat) (r : RRow) (hv : valuedRow r)
    (h : ∀ row ∈ df.rows, rowRankOK row) :
    ∀ row ∈ (ffpcApply df i r).rows, rowRankOK row := by
  intro row hrow
  rw [ffpcApply_rows] at hrow
  rcases mem_updateAt _ _ _ _ hrow with h2 | ⟨r0, hr0, rfl⟩
  · exact h row h2
  · exact rowRankOK_ffpcWrite r0 r hv (h r0 hr0)

lemma inv_udApply (df : DFrame) (i : Nat) (r : RRow) (hv : valuedRow r)
    (h : ∀ row ∈ df.rows, rowRankOK row) :
    ∀ row ∈ (udApply df i r).rows, rowRankOK row := by
  intro row hrow
  rw [udApply_rows] at hrow
  rcases mem_updateAt _ _ _ _ hrow with h2 | ⟨r0, hr0, rfl⟩
  · exact h row h2
  · exact rowRankOK_udWrite r0 r hv (h r0 hr0)

lemma ffpcStep_inv (sim : List Nat → List Nat → ℚ) (st st2 : DFrame × Stats)
    (rx : RRowX) (hval : ∀ r0, rx = RRowX.ok r0 → valuedRow r0)
    (h : ∀ row ∈ st.1.rows, rowRankOK row)
    (hs : ffpcStep sim st rx = some st2) :
    ∀ row ∈ st2.1.rows, rowRankOK row := by
  cases rx with
  | bad => simp [ffpcStep] at hs
  | ok r =>
    have hv := hval r rfl
    simp only [ffpcStep] at hs
    by_cases h1 : (matchIdxs st.1 (normalize_player_name r.name)).length = 1
    · rw [if_pos h1] at hs
      obtain rfl : _ = st2 := Option.some.inj hs
      exact inv_ffpcApply _ _ _ hv h
    · rw [if_neg h1] at hs
      by_cases h2 : 1 < (matchIdxs st.1 (normalize_player_name r.name)).length
      · rw [if_pos h2] at hs
        rcases hft : findTeam st.1 (matchIdxs st.1 (normalize_player_name r.name))
            r.team with _ | i
        · simp only [hft] at hs
          obtain rfl : _ = st2 := Option.some.inj hs
          exact h
        · simp only [hft] at hs
          obtain rfl : _ = st2 := Option.some.inj hs
          exact inv_ffpcApply _ _ _ hv h
      · rw [if_neg h2] at hs
        rcases hfz : (fuzzy_match_players sim r.name st.1 defaultThreshold).1
            with _ | i
        · simp only [hfz] at hs
          obtain rfl : _ = st2 := Option.some.inj hs
          exact h
        · simp only [hfz] at hs
          obtain rfl : _ = st2 := Option.some.inj hs
          exact inv_ffpcApply _ _ _ hv h

lemma udStep_inv (sim : List Nat → List Nat → ℚ) (st st2 : DFrame × Stats)
    (rx : RRowX) (hval : ∀ r0, rx = RRowX.ok r0 → valuedRow r0)
    (h : ∀ row ∈ st.1.rows, rowRankOK row)
    (hs : udStep sim st rx = some st2) :
    ∀ row ∈ st2.1.rows, rowRankOK row := by
  cases rx with
  | bad => simp [udStep] at hs
  | ok r =>
    have hv := hval r rfl
    simp only [udStep] at hs
    by_cases h1 : 0 < (matchIdxs st.1 (normalize_player_name r.name)).length
    · rw [if_pos h1] at hs
      obtain rfl : _ = st2 := Option.some.inj hs
      exact inv_udApply _ _ _ hv h
    · rw [if_neg h1] at hs
      rcases hfz : (fuzzy_match_players sim r.name st.1 defaultThreshold).1
          with _ | i
      · simp only [hfz] at hs
        obtain rfl : _ = st2 := Option.some.inj hs
        exact h
      · simp only [hfz] at hs
        obtain rfl : _ = st2 := Option.some.inj hs
        exact inv_udApply _ _ _ hv h

lemma runRows_inv (f : DFrame × Stats → RRowX → Option (DFrame × Stats))
    (P : DFrame → Prop) :
    ∀ (t : RTable),
      (∀ st rx st2, rx ∈ t → P st.1 → f st rx = some st2 → P st2.1) →
      ∀ st, P st.1 → P (runRows f st t).1.1 := by
  intro t
  induction t with
  | nil => intro _ st h; exact h
  | cons rx rest ih =>
    intro hstep st h
    show P (runRows f st (rx :: rest)).1.1
    rcases hfx : f st rx with _ | st2
    · simp only [runRows, hfx]
      exact h
    · simp only [runRows, hfx]
      exact ih (fun st3 rx2 st4 hm => hstep st3 rx2 st4 (by simp [hm])) st2
        (hstep st rx st2 (by simp) h hfx)

lemma runSource_inv (step : DFrame × Stats → RRowX → Option (DFrame × Stats))
    (P : DFrame → Prop) (key : String) (rd : RankingData)
    (hstep : ∀ t, List.lookup key rd = some t →
      ∀ st rx st2, rx ∈ t → P st.1 → step st rx = some st2 → P st2.1)
    (st : DFrame × Stats) (h : P st.1) :
    P (runSource step key rd st).1.1 := by
  unfold runSource
  rcases hl : List.lookup key rd with _ | t
  · exact h
  · exact runRows_inv step P t (hstep t hl) st h

lemma mergeRun_inv (sim : List Nat → List Nat → ℚ) (df0 : DFrame)
    (rd : RankingData)
    (hval : ∀ p ∈ rd, ∀ rx ∈ p.2, ∀ r0, rx = RRowX.ok r0 → valuedRow r0)
    (h0 : ∀ row ∈ (mergePrep df0).rows, rowRankOK row) :
    ∀ row ∈ (mergeRun sim df0 rd).1.1.rows, rowRankOK row := by
  have hP1 : ∀ row ∈ (runSource (ffpcStep sim) ("ffpc") rd
      (mergePrep df0, initStats)).1.1.rows, rowRankOK row := by
    apply runSource_inv (ffpcStep sim) (fun df => ∀ row ∈ df.rows, rowRankOK row)
      ("ffpc") rd ?_ (mergePrep df0, initStats) h0
    intro t hl st rx st2 hm hP hs
    exact ffpcStep_inv sim st st2 rx
      (fun r0 hr0 => hval _ (lookup_mem rd _ t hl) rx hm r0 hr0) hP hs
  unfold mergeRun
  rcases Bool.eq_false_or_eq_true
    (runSource (ffpcStep sim) ("ffpc") rd (mergePrep df0, initStats)).2
    with hok | hok
  · rw [hok]
    simp only [Bool.true_eq_false, if_false]
    apply runSource_inv (udStep sim) (fun df => ∀ row ∈ df.rows, rowRankOK row)
      ("underdog") rd ?_ _ hP1
    intro t hl st rx st2 hm hP hs
    exact udStep_inv sim st st2 rx
      (fun r0 hr0 => hval _ (lookup_mem rd _ t hl) rx hm r0 hr0) hP hs
  · rw [hok]
    simp only [if_pos rfl]
    exact hP1

lemma allocRef_store_self (σ : PdState) (d : DFrame) :
    (allocRef σ d).1.store (allocRef σ d).2 = d := by
  simp [allocRef]

lemma cellPresent_ne (x : Cell) (h : cellPresent x = true) :
    x ≠ Cell.pynone := by
  cases x <;> simp [cellPresent] at h ⊢

lemma valuedRow_of_B (r : RRow) (h : valuedRowB (RRowX.ok r) = true) :
    valuedRow r := by
  simp only [valuedRowB, Bool.and_eq_true] at h
  obtain ⟨⟨⟨h1, h2⟩, h3⟩, h4⟩ := h
  exact ⟨cellPresent_ne _ h1, cellPresent_ne _ h2, cellPresent_ne _ h3,
    cellPresent_ne _ h4⟩

/-- C5: after a merge that completes, every roster row of the returned frame
has, for each ranking source independently, its four ranking cells either
all absent or all present — a match writes a ranking row's four fields
atomically or not at all (given ranking rows whose four metric cells are
present, and a roster that starts with no ranking columns filled). -/
theorem merge_ranking_fields_atomic (sim : List Nat → List Nat → ℚ)
    (σ : PdState) (ref : Nat) (rd : RankingData) (ref2 : Nat) (stats2 : Stats)
    (hval : ∀ p ∈ rd, ∀ rx ∈ p.2, valuedRowB rx = true)
    (hclean : ∀ row ∈ (σ.store ref).rows, ∀ c ∈ rankingColumns,
      rowGet row c = Cell.pynone)
    (h2 : (merge_ranking_data sim σ ref rd).2 = some (ref2, stats2)) :
    ∀ row ∈ ((merge_ranking_data sim σ ref rd).1.store ref2).rows,
      rowRankOK row := by
  by_cases he : (pdEmpty (σ.store ref) || rd.isEmpty) = true
  · have hm : merge_ranking_data sim σ ref rd = (σ, some (ref, [])) := by
      unfold merge_ranking_data
      rw [if_pos he]
    rw [hm] at h2 ⊢
    simp only at h2
    have h3 := Option.some.inj h2
    have href : ref = ref2 := congrArg Prod.fst h3
    rw [← href]
    intro row hrow
    exact rowRankOK_of_all_pynone row (fun c hc => hclean row hrow c hc)
  · have he2 : (pdEmpty (σ.store ref) || rd.isEmpty) = false := by
      simpa using he
    have hP0 : ∀ row ∈ (mergePrep (σ.store ref)).rows, rowRankOK row := by
      intro row hrow
      exact rowRankOK_of_all_pynone row (mergePrep_rank_pynone _ row hrow)
    have hval2 : ∀ p ∈ rd, ∀ rx ∈ p.2, ∀ r0, rx = RRowX.ok r0 →
        valuedRow r0 := by
      intro p hp rx hm r0 hr0
      exact valuedRow_of_B r0 (hr0 ▸ hval p hp rx hm)
    have hPr := mergeRun_inv sim (σ.store ref) rd hval2 hP0
    have hm : merge_ranking_data sim σ ref rd =
        (if (mergeRun sim (σ.store ref) rd).2 = false then
          (setRef σ ref (mergeRun sim (σ.store ref) rd).1.1, none)
        else
          ((allocRef (setRef σ ref (mergeRun sim (σ.store ref) rd).1.1)
              (dfDrop (mergeRun sim (σ.store ref) rd).1.1
                ("normalized_name"))).1,
            some ((allocRef (setRef σ ref (mergeRun sim (σ.store ref) rd).1.1)
                (dfDrop (mergeRun sim (σ.store ref) rd).1.1
                  ("normalized_name"))).2,
              statSet (mergeRun sim (σ.store ref) rd).1.2
                ("players_with_rankings")
                (StatV.num (countRankings
                  (mergeRun sim (σ.store ref) rd).1.1))))) := by
      unfold merge_ranking_data
      rw [if_neg (by simp [he2])]
    rcases Bool.eq_false_or_eq_true (mergeRun sim (σ.store ref) rd).2
      with hok | hok
    · rw [hm, if_neg (by simp [hok])] at h2 ⊢
      have h3 := Option.some.inj h2
      have href := congrArg Prod.fst h3
      simp only at href
      rw [← href, allocRef_store_self]
      intro row hrow
      simp only [dfDrop] at hrow
      obtain ⟨row0, hrow0, rfl⟩ := List.mem_map.1 hrow
      exact rowRankOK_rowDrop row0 (hPr row0 hrow0)
    · rw [hm, if_pos (by rw [hok])] at h2
      simp at h2

lemma setConstFold_cols (cs : List String) (df : DFrame) :
    (cs.foldl (fun d c => dfSetConst d c Cell.pynone) df).cols =
      cs.foldl addColName df.cols := by
  induction cs generalizing df with
  | nil => rfl
  | cons c rest ih =>
    simp only [List.foldl_cons]
    rw [ih]
    rfl

lemma foldl_addColName_all_new :
    ∀ (cs cols : List String), (∀ c ∈ cs, c ∉ cols) → cs.Nodup →
      cs.foldl addColName cols = cols ++ cs := by
  intro cs
  induction cs with
  | nil => intro cols _ _; simp
  | cons c0 rest ih =>
    intro cols hnew hnd
    simp only [List.foldl_cons]
    have h0 : addColName cols c0 = cols ++ [c0] := by
      unfold addColName
      rw [if_neg]
      simpa using hnew c0 (by simp)
    rw [h0, ih (cols ++ [c0]) ?_ (List.Nodup.of_cons hnd)]
    · simp
    · intro c hc
      simp only [List.mem_append, List.mem_singleton]
      rintro (h | rfl)
      · exact hnew c (by simp [hc]) h
      · exact (List.nodup_cons.1 hnd).1 hc

lemma mergePrep_cols (df : DFrame)
    (hnn : ("normalized_name" : String) ∉ df.cols)
    (hrc : ∀ c ∈ rankingColumns, c ∉ df.cols) :
    (mergePrep df).cols = df.cols ++ ("normalized_name") :: rankingColumns := by
  unfold mergePrep
  rw [setConstFold_cols]
  have h1 : (dfSetBy df ("normalized_name") normalizedCol).cols =
      df.cols ++ [("normalized_name")] := by
    show addColName df.cols ("normalized_name") = _
    unfold addColName
    rw [if_neg]
    simpa using hnn
  rw [h1, foldl_addColName_all_new rankingColumns _ ?_ (by decide)]
  · simp
  · intro c hc
    simp only [List.mem_append, List.mem_singleton]
    rintro (h | rfl)
    · exact hrc c hc h
    · have : ("normalized_name" : String) ∈ rankingColumns := hc
      revert this
      decide

lemma ffpcStep_cols (sim : List Nat → List Nat → ℚ) (st st2 : DFrame × Stats)
    (rx : RRowX) (hs : ffpcStep sim st rx = some st2) :
    st2.1.cols = st.1.cols := by
  cases rx with
  | bad => simp [ffpcStep] at hs
  | ok r =>
    simp only [ffpcStep] at hs
    by_cases h1 : (matchIdxs st.1 (normalize_player_name r.name)).length = 1
    · rw [if_pos h1] at hs
      obtain rfl : _ = st2 := Option.some.inj hs
      rfl
    · rw [if_neg h1] at hs
      by_cases h2 : 1 < (matchIdxs st.1 (normalize_player_name r.name)).length
      · rw [if_pos h2] at hs
        rcases hft : findTeam st.1
            (matchIdxs st.1 (normalize_player_name r.name)) r.team with _ | i
        · simp only [hft] at hs
          obtain rfl : _ = st2 := Option.some.inj hs
          rfl
        · simp only [hft] at hs
          obtain rfl : _ = st2 := Option.some.inj hs
          rfl
      · rw [if_neg h2] at hs
        rcases hfz : (fuzzy_match_players sim r.name st.1 defaultThreshold).1
            with _ | i
        · simp only [hfz] at hs
          obtain rfl : _ = st2 := Option.some.inj hs
          rfl
        · simp only [hfz] at hs
          obtain rfl : _ = st2 := Option.some.inj hs
          rfl

lemma udStep_cols (sim : List Nat → List Nat → ℚ) (st st2 : DFrame × Stats)
    (rx : RRowX) (hs : udStep sim st rx = some st2) :
    st2.1.cols = st.1.cols := by
  cases rx with
  | bad => simp [udStep] at hs
  | ok r =>
    simp only [udStep] at hs
    by_cases h1 : 0 < (matchIdxs st.1 (normalize_player_name r.name)).length
    · rw [if_pos h1] at hs
      obtain rfl : _ = st2 := Option.some.inj hs
      rfl
    · rw [if_neg h1] at hs
      rcases hfz : (fuzzy_match_players sim r.name st.1 defaultThreshold).1
          with _ | i
      · simp only [hfz] at hs
        obtain rfl : _ = st2 := Option.some.inj hs
        rfl
      · simp only [hfz] at hs
        obtain rfl : _ = st2 := Option.some.inj hs
        rfl

lemma mergeRun_cols (sim : List Nat → List Nat → ℚ) (df0 : DFrame)
    (rd : RankingData) :
    (mergeRun sim df0 rd).1.1.cols = (mergePrep df0).cols := by
  have hP1 : (runSource (ffpcStep sim) ("ffpc") rd
      (mergePrep df0, initStats)).1.1.cols = (mergePrep df0).cols := by
    apply runSource_inv (ffpcStep sim) (fun df => df.cols = (mergePrep df0).cols)
      ("ffpc") rd ?_ (mergePrep df0, initStats) rfl
    intro t _ st rx st2 _ hP hs
    rw [ffpcStep_cols sim st st2 rx hs, hP]
  unfold mergeRun
  rcases Bool.eq_false_or_eq_true
    (runSource (ffpcStep sim) ("ffpc") rd (mergePrep df0, initStats)).2
    with hok | hok
  · rw [hok]
    simp only [Bool.true_eq_false, if_false]
    apply runSource_inv (udStep sim) (fun df => df.cols = (mergePrep df0).cols)
      ("underdog") rd ?_ _ hP1
    intro t _ st rx st2 _ hP hs
    rw [udStep_cols sim st st2 rx hs, hP]
  · rw [hok]
    simp only [if_pos rfl]
    exact hP1

lemma setRef_store_self (σ : PdState) (r : Nat) (df : DFrame) :
    (setRef σ r df).store r = df := by
  simp [setRef]

lemma allocRef_store_other (σ : PdState) (d : DFrame) (i : Nat)
    (h : i ≠ σ.next) : (allocRef σ d).1.store i = σ.store i := by
  simp [allocRef, h]

/-- C9: on a completing merge the caller's frame object is mutated in place
— afterwards it carries the original columns, then the temporary
`normalized_name` column, then the eight ranking columns — while the
returned frame is a distinct fresh object whose columns are the original
ones plus the eight ranking columns only (the final drop copies instead of
mutating). -/
theorem merge_ranking_data_inplace (sim : List Nat → List Nat → ℚ)
    (σ : PdState) (ref : Nat) (rd : RankingData) (ref2 : Nat) (stats2 : Stats)
    (href : ref < σ.next)
    (hnn : ("normalized_name" : String) ∉ (σ.store ref).cols)
    (hrc : ∀ c ∈ rankingColumns, c ∉ (σ.store ref).cols)
    (hne : (pdEmpty (σ.store ref) || rd.isEmpty) = false)
    (h2 : (merge_ranking_data sim σ ref rd).2 = some (ref2, stats2)) :
    ((merge_ranking_data sim σ ref rd).1.store ref).cols =
      (σ.store ref).cols ++ ("normalized_name") :: rankingColumns ∧
    ref2 ≠ ref ∧
    ((merge_ranking_data sim σ ref rd).1.store ref2).cols =
      (σ.store ref).cols ++ rankingColumns := by
  have hprep := mergePrep_cols (σ.store ref) hnn hrc
  have hrun : (mergeRun sim (σ.store ref) rd).1.1.cols =
      (σ.store ref).cols ++ ("normalized_name") :: rankingColumns := by
    rw [mergeRun_cols, hprep]
  have hm : merge_ranking_data sim σ ref rd =
      (if (mergeRun sim (σ.store ref) rd).2 = false then
        (setRef σ ref (mergeRun sim (σ.store ref) rd).1.1, none)
      else
        ((allocRef (setRef σ ref (mergeRun sim (σ.store ref) rd).1.1)
            (dfDrop (mergeRun sim (σ.store ref) rd).1.1
              ("normalized_name"))).1,
          some ((allocRef (setRef σ ref (mergeRun sim (σ.store ref) rd).1.1)
              (dfDrop (mergeRun sim (σ.store ref) rd).1.1
                ("normalized_name"))).2,
            statSet (mergeRun sim (σ.store ref) rd).1.2
              ("players_with_rankings")
              (StatV.num (countRankings
                (mergeRun sim (σ.store ref) rd).1.1))))) := by
    unfold merge_ranking_data
    rw [if_neg (by simp [hne])]
  rcases Bool.eq_false_or_eq_true (mergeRun sim (σ.store ref) rd).2
    with hok | hok
  · rw [hm, if_neg (by simp [hok])] at h2 ⊢
    have h3 := Option.some.inj h2
    have href2 := congrArg Prod.fst h3
    simp only at href2
    have hrefval : ref2 = σ.next := by
      rw [← href2]
      rfl
    refine ⟨?_, ?_, ?_⟩
    · rw [allocRef_store_other _ _ ref (by
        show ref ≠ (setRef σ ref (mergeRun sim (σ.store ref) rd).1.1).next
        simpa [setRef] using Nat.ne_of_lt href)]
      rw [setRef_store_self]
      exact hrun
    · rw [hrefval]
      exact Nat.ne_of_gt href
    · rw [← href2, allocRef_store_self]
      show ((mergeRun sim (σ.store ref) rd).1.1.cols.filter
        (fun x => x != ("normalized_name"))) = _
      rw [hrun, List.filter_append]
      have hleft : (σ.store ref).cols.filter
          (fun x => x != ("normalized_name")) = (σ.store ref).cols := by
        rw [List.filter_eq_self]
        intro x hx
        simp only [bne_iff_ne, ne_eq]
        exact fun hc => hnn (hc ▸ hx)
      have hright : (("normalized_name") :: rankingColumns).filter
          (fun x => x != ("normalized_name")) = rankingColumns := by
        decide
      rw [hleft, hright]
  · rw [hm, if_pos (by rw [hok])] at h2
    simp at h2

/-- Witness for C9 on the concrete two-row roster. -/
theorem merge_ranking_data_inplace_witness :
    0 < stC1.next ∧
    (("normalized_name" : String) ∉ (stC1.store 0).cols) ∧
    (∀ c ∈ rankingColumns, c ∉ (stC1.store 0).cols) ∧
    (pdEmpty (stC1.store 0) || rdC1.isEmpty) = false ∧
    (merge_ranking_data simZero stC1 0 rdC1).2 = some (1, mergeStatsC1) ∧
    (((merge_ranking_data simZero stC1 0 rdC1).1.store 0).cols =
      (stC1.store 0).cols ++ ("normalized_name") :: rankingColumns ∧
    (1 : Nat) ≠ 0 ∧
    ((merge_ranking_data simZero stC1 0 rdC1).1.store 1).cols =
      (stC1.store 0).cols ++ rankingColumns) :=
  ⟨by decide, by decide, by decide, by decide, by decide,
    merge_ranking_data_inplace simZero stC1 0 rdC1 1 mergeStatsC1 (by decide)
      (by decide) (by decide) (by decide) (by decide)⟩


/-- Witness for C5 on a concrete two-row roster and one Underdog row. -/
lemma enumFrom_filter_fst (p : Row → Bool) :
    ∀ (rows : List Row) (k : Nat),
    ((List.enumFrom k rows).filter (fun q => p q.2)).map Prod.fst =
      (List.range' k rows.length).filter (fun j => p (rows.getD (j - k) [])) := by
  intro rows
  induction rows with
  | nil => intro k; rfl
  | cons r t ih =>
    intro k
    have hk : ((r :: t).getD (k - k) []) = r := by
      rw [Nat.sub_self]; rfl
    have htail :
        (List.range' (k + 1) t.length).filter
            (fun j => p (t.getD (j - (k + 1)) [])) =
          (List.range' (k + 1) t.length).filter
            (fun j => p ((r :: t).getD (j - k) [])) := by
      refine List.filter_congr ?_
      intro j hj
      obtain ⟨hj1, _⟩ := List.mem_range'_1.mp hj
      have hjk : j - k = (j - (k + 1)) + 1 := by omega
      rw [hjk, List.getD_cons_succ]
    have hrec := ih (k + 1)
    show (((k, r) :: List.enumFrom (k + 1) t).filter (fun q => p q.2)).map Prod.fst =
      (List.range' k (t.length + 1)).filter (fun j => p ((r :: t).getD (j - k) []))
    rw [List.range'_succ]
    simp only [List.filter_cons]
    rw [hk]
    by_cases hp : p r = true
    · rw [if_pos hp, if_pos hp, List.map_cons, hrec, htail]
    · rw [if_neg hp, if_neg hp, hrec, htail]

lemma matchIdxs_eq (df : DFrame) (nm : List Nat) :
    matchIdxs df nm = (List.range df.rows.length).filter
      (fun j => rowGet (df.rows.getD j []) ("normalized_name")
        == Cell.pystr nm) := by
  rw [List.range_eq_range' df.rows.length]
  have h := enumFrom_filter_fst
    (fun row => rowGet row ("normalized_name") == Cell.pystr nm) df.rows 0
  refine h.trans (List.filter_congr ?_)
  intro j hj
  simp

lemma mem_matchIdxs (df : DFrame) (nm : List Nat) (j : Nat) :
    j ∈ matchIdxs df nm ↔ j < df.rows.length ∧
      rowGet (df.rows.getD j []) ("normalized_name") = Cell.pystr nm := by
  rw [matchIdxs_eq]
  simp [List.mem_filter, List.mem_range]

lemma matchIdxs_sorted (df : DFrame) (nm : List Nat) :
    List.Sorted (· < ·) (matchIdxs df nm) := by
  rw [matchIdxs_eq]
  exact (List.pairwise_lt_range df.rows.length).filter _

lemma sorted_headD_le (l : List Nat) (h : List.Sorted (· < ·) l) :
    ∀ j ∈ l, l.headD 0 ≤ j := by
  cases l with
  | nil => intro j hj; cases hj
  | cons a t =>
    intro j hj
    rcases List.mem_cons.mp hj with rfl | hj2
    · exact Nat.le_refl _
    · exact Nat.le_of_lt ((List.pairwise_cons.mp h).1 j hj2)

lemma find?_split (p : Nat → Bool) :
    ∀ (l : List Nat) (i : Nat), l.find? p = some i →
      ∃ l1 l2, l = l1 ++ i :: l2 ∧ ∀ j ∈ l1, p j = false := by
  intro l
  induction l with
  | nil => intro i h; simp at h
  | cons a t ih =>
    intro i h
    by_cases hp : p a = true
    · rw [List.find?_cons_of_pos t hp] at h
      obtain rfl : a = i := Option.some.inj h
      exact ⟨[], t, rfl, by intro j hj; cases hj⟩
    · have hp2 : p a = false := by simpa using hp
      rw [List.find?_cons_of_neg t (by simp [hp2])] at h
      obtain ⟨l1, l2, rfl, hall⟩ := ih i h
      refine ⟨a :: l1, l2, rfl, ?_⟩
      intro j hj
      rcases List.mem_cons.mp hj with rfl | hj2
      · exact hp2
      · exact hall j hj2

lemma findTeam_some (df : DFrame) (ms : List Nat) (t : Cell) (i : Nat)
    (h : findTeam df ms t = some i) :
    i ∈ ms ∧ rowGet (df.rows.getD i []) ("team") = t ∧
      ∃ l1 l2, ms = l1 ++ i :: l2 ∧
        ∀ j ∈ l1, rowGet (df.rows.getD j []) ("team") ≠ t := by
  unfold findTeam at h
  have hpred0 := @List.find?_some _ _ _ _ h
  have hpred : (rowGet (df.rows.getD i []) ("team") == t) = true := hpred0
  refine ⟨List.mem_of_find?_eq_some h, beq_iff_eq.mp hpred, ?_⟩
  obtain ⟨l1, l2, heq, hall⟩ := find?_split _ ms i h
  refine ⟨l1, l2, heq, ?_⟩
  intro j hj hc
  have hb := hall j hj
  rw [hc] at hb
  simp at hb

lemma sorted_split_lt (l l1 l2 : List Nat) (i : Nat)
    (hs : List.Sorted (· < ·) l) (heq : l = l1 ++ i :: l2) :
    ∀ j ∈ l, j < i → j ∈ l1 := by
  subst heq
  intro j hj hji
  rcases List.mem_append.mp hj with h1 | h2
  · exact h1
  · rcases List.mem_cons.mp h2 with rfl | h3
    · exact absurd hji (lt_irrefl _)
    · have hpa := (List.pairwise_append.mp hs).2.1
      have hlt : i < j := (List.pairwise_cons.mp hpa).1 j h3
      omega

theorem merge_ranking_fields_atomic_witness :
    (∀ p ∈ rdC1, ∀ rx ∈ p.2, valuedRowB rx = true) ∧
    (∀ row ∈ (stC1.store 0).rows, ∀ c ∈ rankingColumns,
      rowGet row c = Cell.pynone) ∧
    (merge_ranking_data simZero stC1 0 rdC1).2 = some (1, mergeStatsC1) ∧
    ∀ row ∈ ((merge_ranking_data simZero stC1 0 rdC1).1.store 1).rows,
      rowRankOK row :=
  ⟨by decide, by decide, by decide,
    merge_ranking_fields_atomic simZero stC1 0 rdC1 1 mergeStatsC1
      (by decide) (by decide) (by decide)⟩

/-- C1, counterexample: the Underdog pass does not disambiguate by team.  The
roster holds two entries named John Smith, the first (row 0) on team MIN and
the second (row 1) on team KC; the Underdog ranking row carries team KC, yet
after the merge the Underdog fields land on row 0 (the MIN entry) and the
KC entry stays absent — refuting the claim's "every ranking source's merge
pass" scope. -/
theorem merge_team_disambiguation_cx :
    (matchIdxs (mergePrep dfC1) (normalize_player_name udRowC1.name)).length = 2 ∧
    rowGet ((mergePrep dfC1).rows.getD 0 []) ("team") ≠ udRowC1.team ∧
    rowGet ((mergePrep dfC1).rows.getD 1 []) ("team") = udRowC1.team ∧
    rowGet (((merge_ranking_data simZero stC1 0 rdC1).1.store 0).rows.getD 0 [])
        ("ud_adp") = Cell.pynum 5 ∧
    rowGet (((merge_ranking_data simZero stC1 0 rdC1).1.store 0).rows.getD 1 [])
        ("ud_adp") = Cell.pynone := by
  decide

/-- C1, amended: only the FFPC pass disambiguates an ambiguous exact match by
team.  (i) When more than one roster row shares the normalized name and some
candidate's team matches, the FFPC pass applies the row to the first (in
roster-table order, i.e. least roster index) candidate whose team equals the
ranking row's team.  (ii) When no candidate's team matches, the FFPC pass
records the row as unmatched and leaves the frame unchanged — no fuzzy
fallback.  (iii) The Underdog pass never consults teams: any nonempty exact
match set selects its first roster index outright. -/
theorem merge_team_disambiguation (sim : List Nat → List Nat → ℚ) :
    (∀ (st : DFrame × Stats) (r : RRow) (i : Nat),
      1 < (matchIdxs st.1 (normalize_player_name r.name)).length →
      findTeam st.1 (matchIdxs st.1 (normalize_player_name r.name)) r.team =
        some i →
      ffpcStep sim st (RRowX.ok r) =
          some (ffpcApply st.1 i r, statInc st.2 ("ffpc_matched")) ∧
        i ∈ matchIdxs st.1 (normalize_player_name r.name) ∧
        rowGet (st.1.rows.getD i []) ("team") = r.team ∧
        ∀ j ∈ matchIdxs st.1 (normalize_player_name r.name), j < i →
          rowGet (st.1.rows.getD j []) ("team") ≠ r.team) ∧
    (∀ (st : DFrame × Stats) (r : RRow),
      1 < (matchIdxs st.1 (normalize_player_name r.name)).length →
      findTeam st.1 (matchIdxs st.1 (normalize_player_name r.name)) r.team =
        none →
      ffpcStep sim st (RRowX.ok r) =
          some (st.1, statApp st.2 ("ffpc_unmatched")
            (unmatchedOf r (normalize_player_name r.name))) ∧
        ∀ j ∈ matchIdxs st.1 (normalize_player_name r.name),
          rowGet (st.1.rows.getD j []) ("team") ≠ r.team) ∧
    (∀ (st : DFrame × Stats) (r : RRow),
      0 < (matchIdxs st.1 (normalize_player_name r.name)).length →
      udStep sim st (RRowX.ok r) =
          some (udApply st.1
              ((matchIdxs st.1 (normalize_player_name r.name)).headD 0) r,
            statInc st.2 ("underdog_matched")) ∧
        ∀ j ∈ matchIdxs st.1 (normalize_player_name r.name),
          (matchIdxs st.1 (normalize_player_name r.name)).headD 0 ≤ j) := by
  refine ⟨?_, ?_, ?_⟩
  · intro st r i hgt hfind
    have hne1 : ¬ (matchIdxs st.1 (normalize_player_name r.name)).length = 1 := by
      omega
    obtain ⟨hmem, hteam, l1, l2, heq, hall⟩ := findTeam_some _ _ _ _ hfind
    refine ⟨?_, hmem, hteam, ?_⟩
    · simp only [ffpcStep]
      rw [if_neg hne1, if_pos hgt]
      simp only [hfind]
    · intro j hj hji
      exact hall j (sorted_split_lt _ l1 l2 i (matchIdxs_sorted _ _) heq j hj hji)
  · intro st r hgt hfind
    have hne1 : ¬ (matchIdxs st.1 (normalize_player_name r.name)).length = 1 := by
      omega
    refine ⟨?_, ?_⟩
    · simp only [ffpcStep]
      rw [if_neg hne1, if_pos hgt]
      simp only [hfind]
    · intro j hj hc
      have hfind2 := hfind
      unfold findTeam at hfind2
      have hb := List.find?_eq_none.mp hfind2 j hj
      rw [hc] at hb
      simp at hb
  · intro st r hpos
    refine ⟨?_, ?_⟩
    · simp only [udStep]
      rw [if_pos hpos]
    · exact sorted_headD_le _ (matchIdxs_sorted _ _)

/-- C1, witness: on the two-row John Smith roster the FFPC pass (team known
to match at roster index 1) writes to index 1, and the Underdog pass writes
to the head match index. -/
theorem merge_team_disambiguation_witness :
    ffpcStep simZero (mergePrep dfC1, initStats) (RRowX.ok udRowC1) =
        some (ffpcApply (mergePrep dfC1) 1 udRowC1,
          statInc initStats ("ffpc_matched")) ∧
    udStep simZero (mergePrep dfC1, initStats) (RRowX.ok udRowC1) =
        some (udApply (mergePrep dfC1)
            ((matchIdxs (mergePrep dfC1)
              (normalize_player_name udRowC1.name)).headD 0) udRowC1,
          statInc initStats ("underdog_matched")) :=
  ⟨((merge_team_disambiguation simZero).1 (mergePrep dfC1, initStats) udRowC1 1
      (by decide) (by decide)).1,
   ((merge_team_disambiguation simZero).2.2 (mergePrep dfC1, initStats) udRowC1
      (by decide)).1⟩

lemma rowGet_udWrite_ffpc (r : RRow) (row : Row) (c : String)
    (hc : c ∈ ffpcColumns) : rowGet (udWrite r row) c = rowGet row c := by
  rw [rowGet_udWrite]
  fin_cases hc <;> rfl

lemma updateAt_ge (rows : List Row) (i : Nat) (f : Row → Row)
    (h : rows.length ≤ i) : updateAt rows i f = rows := by
  induction rows generalizing i with
  | nil => rfl
  | cons r t ih =>
    cases i with
    | zero => simp at h
    | succ i2 =>
      simp only [updateAt]
      rw [ih i2 (by simp only [List.length_cons] at h; omega)]

lemma udApply_getD_ffpc (df : DFrame) (i k : Nat) (r : RRow) (c : String)
    (hc : c ∈ ffpcColumns) :
    rowGet ((udApply df i r).rows.getD k []) c =
      rowGet (df.rows.getD k []) c := by
  rw [udApply_rows]
  by_cases hlen : i < df.rows.length
  · by_cases hik : k = i
    · subst hik
      rw [updateAt_getD_self _ _ _ hlen, rowGet_udWrite_ffpc _ _ _ hc]
    · rw [updateAt_getD_ne _ _ _ _ hik]
  · rw [updateAt_ge _ _ _ (by omega)]

lemma udStep_ffpc_cells (sim : List Nat → List Nat → ℚ) (st st2 : DFrame × Stats)
    (rx : RRowX) (hs : udStep sim st rx = some st2) (k : Nat) (c : String)
    (hc : c ∈ ffpcColumns) :
    rowGet (st2.1.rows.getD k []) c = rowGet (st.1.rows.getD k []) c := by
  cases rx with
  | bad => simp [udStep] at hs
  | ok r =>
    simp only [udStep] at hs
    by_cases h1 : 0 < (matchIdxs st.1 (normalize_player_name r.name)).length
    · rw [if_pos h1] at hs
      obtain rfl : _ = st2 := Option.some.inj hs
      exact udApply_getD_ffpc _ _ _ _ _ hc
    · rw [if_neg h1] at hs
      rcases hfz : (fuzzy_match_players sim r.name st.1 defaultThreshold).1
          with _ | i
      · simp only [hfz] at hs
        obtain rfl : _ = st2 := Option.some.inj hs
        rfl
      · simp only [hfz] at hs
        obtain rfl : _ = st2 := Option.some.inj hs
        exact udApply_getD_ffpc _ _ _ _ _ hc

lemma runRows_ud_ffpc_cells (sim : List Nat → List Nat → ℚ) :
    ∀ (t : RTable) (st : DFrame × Stats) (k : Nat) (c : String),
      c ∈ ffpcColumns →
      rowGet ((runRows (udStep sim) st t).1.1.rows.getD k []) c =
        rowGet (st.1.rows.getD k []) c := by
  intro t
  induction t with
  | nil => intro st k c _; rfl
  | cons rx rest ih =>
    intro st k c hc
    rcases hfx : udStep sim st rx with _ | st2
    · simp only [runRows, hfx]
    · simp only [runRows, hfx]
      rw [ih st2 k c hc, udStep_ffpc_cells sim st st2 rx hfx k c hc]

/-- C2, counterexample: the merge has no per-source failure isolation.  The
FFPC table is malformed (the claim's scenario), the Underdog table holds a
row that matches the single roster entry exactly, yet the merge returns no
statistics at all and the Underdog fields were never applied — the Underdog
source did not proceed. -/
theorem merge_source_failure_cx :
    (merge_ranking_data simZero stC2 0 rdC2).2 = none ∧
    rowGet (((merge_ranking_data simZero stC2 0 rdC2).1.store 0).rows.getD 0 [])
        ("ud_adp") = Cell.pynone ∧
    (matchIdxs (mergePrep dfC2) (normalize_player_name udRowC2.name)).length
      = 1 := by
  decide

/-- C2, amended: a failure inside one source's loop aborts the whole merge at
that point rather than skipping just that source.  With the FFPC loop
succeeding and the Underdog loop failing, the merge returns the caller's
frame as mutated so far with no statistics (`none`); the earlier FFPC
matches survive on that frame, since the Underdog loop never touches the
four FFPC columns; and the try/except in `export_to_excel` catches the
failure, keeping the caller's frame object and continuing. -/
theorem merge_source_failure_behavior (sim : List Nat → List Nat → ℚ)
    (σ : PdState) (ref : Nat) (tf tu : RTable)
    (hne : pdEmpty (σ.store ref) = false)
    (h1 : (runRows (ffpcStep sim) (mergePrep (σ.store ref), initStats) tf).2 =
      true)
    (h2 : (runRows (udStep sim)
        (runRows (ffpcStep sim) (mergePrep (σ.store ref), initStats) tf).1
        tu).2 = false) :
    merge_ranking_data sim σ ref [(("ffpc"), tf), (("underdog"), tu)] =
        (setRef σ ref
          (runRows (udStep sim)
            (runRows (ffpcStep sim) (mergePrep (σ.store ref), initStats) tf).1
            tu).1.1, none) ∧
      exportMergeStep sim σ ref [(("ffpc"), tf), (("underdog"), tu)] =
        (setRef σ ref
          (runRows (udStep sim)
            (runRows (ffpcStep sim) (mergePrep (σ.store ref), initStats) tf).1
            tu).1.1, ref) ∧
      ∀ (k : Nat) (c : String), c ∈ ffpcColumns →
        rowGet ((runRows (udStep sim)
            (runRows (ffpcStep sim) (mergePrep (σ.store ref), initStats) tf).1
            tu).1.1.rows.getD k []) c =
          rowGet ((runRows (ffpcStep sim)
            (mergePrep (σ.store ref), initStats) tf).1.1.rows.getD k []) c := by
  have hrs1 : runSource (ffpcStep sim) ("ffpc")
      [(("ffpc"), tf), (("underdog"), tu)] (mergePrep (σ.store ref), initStats) =
      runRows (ffpcStep sim) (mergePrep (σ.store ref), initStats) tf := by
    simp [runSource, List.lookup]
  have hrs2 : ∀ st, runSource (udStep sim) ("underdog")
      [(("ffpc"), tf), (("underdog"), tu)] st = runRows (udStep sim) st tu := by
    intro st
    simp [runSource, List.lookup]
  have hmr : mergeRun sim (σ.store ref) [(("ffpc"), tf), (("underdog"), tu)] =
      runRows (udStep sim)
        (runRows (ffpcStep sim) (mergePrep (σ.store ref), initStats) tf).1
        tu := by
    unfold mergeRun
    rw [hrs1]
    rw [if_neg (by rw [h1]; simp), hrs2]
  have hB : (mergeRun sim (σ.store ref)
      [(("ffpc"), tf), (("underdog"), tu)]).2 = false := by
    rw [hmr]; exact h2
  have hA : ¬ ((pdEmpty (σ.store ref) ||
      List.isEmpty [(("ffpc"), tf), (("underdog"), tu)]) = true) := by
    simp [hne]
  have hmerge : merge_ranking_data sim σ ref
      [(("ffpc"), tf), (("underdog"), tu)] =
      (setRef σ ref (runRows (udStep sim)
        (runRows (ffpcStep sim) (mergePrep (σ.store ref), initStats) tf).1
        tu).1.1, none) := by
    unfold merge_ranking_data
    rw [if_neg hA, if_pos hB, hmr]
  refine ⟨hmerge, ?_, ?_⟩
  · unfold exportMergeStep
    rw [hmerge]
  · intro k c hc
    exact runRows_ud_ffpc_cells sim tu _ k c hc

/-- C2, witness: a concrete roster with a successful FFPC table and a
malformed Underdog table; the merge returns `none` with the partially
mutated frame, and the export step keeps the caller's reference. -/
theorem merge_source_failure_behavior_witness :
    merge_ranking_data simZero stC2 0
        [(("ffpc"), [RRowX.ok ffRowC2]), (("underdog"), [RRowX.bad])] =
      (setRef stC2 0
        (runRows (udStep simZero)
          (runRows (ffpcStep simZero) (mergePrep (stC2.store 0), initStats)
            [RRowX.ok ffRowC2]).1 [RRowX.bad]).1.1, none) ∧
    exportMergeStep simZero stC2 0
        [(("ffpc"), [RRowX.ok ffRowC2]), (("underdog"), [RRowX.bad])] =
      (setRef stC2 0
        (runRows (udStep simZero)
          (runRows (ffpcStep simZero) (mergePrep (stC2.store 0), initStats)
            [RRowX.ok ffRowC2]).1 [RRowX.bad]).1.1, 0) :=
  have h := merge_source_failure_behavior simZero stC2 0 [RRowX.ok ffRowC2]
    [RRowX.bad] (by decide) (by decide) (by decide)
  ⟨h.1, h.2.1⟩

/-- C8, counterexample: the forms are not simply tried first-match-wins.  A
negative decimal string contains a dash, so the dash branch claims it,
`int` fails on the empty feet part, and the caught exception returns absent
— the decimal reading is never tried.  The claim-as-worded parser
(`specParseHeightClaim`) would fall through to the decimal form and accept
it. -/
theorem parse_height_not_spec :
    parse_height (some (pyStr ("-72.5"))) = none ∧
    (specParseHeightClaim (some (pyStr ("-72.5")))).isSome = true := by
  decide

/-- C8, amended: `parse_height` gives absent on null and on empty (after
stripping); a pure digit string is returned as inches; with an apostrophe
present (after removing double quotes), a two-part apostrophe split is read
as integer feet and inches (an empty inches part counts as zero) and an
`int` failure on either part returns absent with no decimal fallback;
otherwise with a dash present, a two-part dash split is read the same way,
again with an `int` failure returning absent rather than falling back, and
any other dash count falls through to the float parse; with no dash the
string goes to the float parse. -/
theorem parse_height_forms :
    parse_height none = none ∧
    (∀ hv : List Nat, pyStrip hv = [] → parse_height (some hv) = none) ∧
    (∀ hv : List Nat, pyIsdigit (pyStrip hv) = true →
      parse_height (some hv) = some ((digitsVal (pyStrip hv) : ℚ))) ∧
    (∀ (hv a b : List Nat) (f i : Int), pyIsdigit (pyStrip hv) = false →
      39 ∈ pyStrip hv →
      splitSep 39 (pyReplace (pyStrip hv) [34] []) = [a, b] →
      pyInt a = some f →
      (if b = [] then some (0 : Int) else pyInt b) = some i →
      parse_height (some hv) = some (((12 * f + i : Int) : ℚ))) ∧
    (∀ (hv a b : List Nat), pyIsdigit (pyStrip hv) = false →
      39 ∈ pyStrip hv →
      splitSep 39 (pyReplace (pyStrip hv) [34] []) = [a, b] →
      pyInt a = none ∨ (b ≠ [] ∧ pyInt b = none) →
      parse_height (some hv) = none) ∧
    (∀ (hv a b : List Nat) (f i : Int), pyIsdigit (pyStrip hv) = false →
      39 ∉ pyStrip hv → 45 ∈ pyStrip hv →
      splitSep 45 (pyStrip hv) = [a, b] →
      pyInt a = some f →
      (if b = [] then some (0 : Int) else pyInt b) = some i →
      parse_height (some hv) = some (((12 * f + i : Int) : ℚ))) ∧
    (∀ (hv a b : List Nat), pyIsdigit (pyStrip hv) = false →
      39 ∉ pyStrip hv → 45 ∈ pyStrip hv →
      splitSep 45 (pyStrip hv) = [a, b] →
      pyInt a = none ∨ (b ≠ [] ∧ pyInt b = none) →
      parse_height (some hv) = none) ∧
    (∀ hv : List Nat, pyIsdigit (pyStrip hv) = false →
      39 ∉ pyStrip hv → 45 ∈ pyStrip hv →
      (splitSep 45 (pyStrip hv)).length ≠ 2 →
      parse_height (some hv) = pyFloat (pyStrip hv)) ∧
    (∀ hv : List Nat, pyStrip hv ≠ [] → pyIsdigit (pyStrip hv) = false →
      39 ∉ pyStrip hv → 45 ∉ pyStrip hv →
      parse_height (some hv) = pyFloat (pyStrip hv)) := by
  refine ⟨rfl, ?_, ?_, ?_, ?_, ?_, ?_, ?_, ?_⟩
  · intro hv h
    simp only [parse_height]
    rw [if_pos h]
  · intro hv hd
    have hne : ¬ pyStrip hv = [] := by
      intro h0
      rw [h0] at hd
      simp [pyIsdigit] at hd
    simp only [parse_height]
    rw [if_neg hne]
    simp only [parseHeightBody]
    rw [if_pos hd]
  · intro hv a b f i hd h39 hsplit hf hi
    have hne : ¬ pyStrip hv = [] := by
      intro h0
      rw [h0] at h39
      exact absurd h39 (List.not_mem_nil _)
    simp only [parse_height]
    rw [if_neg hne]
    simp only [parseHeightBody]
    rw [if_neg (by rw [hd]; simp), if_pos h39]
    simp only [hsplit, hf, hi]
  · intro hv a b hd h39 hsplit hFail
    have hne : ¬ pyStrip hv = [] := by
      intro h0
      rw [h0] at h39
      exact absurd h39 (List.not_mem_nil _)
    simp only [parse_height]
    rw [if_neg hne]
    simp only [parseHeightBody]
    rw [if_neg (by rw [hd]; simp), if_pos h39]
    simp only [hsplit]
    rcases hFail with hfa | ⟨hb, hfb⟩
    · simp only [hfa]
    · rw [if_neg hb]
      rcases hpa : pyInt a with _ | f <;> simp only [hpa, hfb]
  · intro hv a b f i hd h39 h45 hsplit hf hi
    have hne : ¬ pyStrip hv = [] := by
      intro h0
      rw [h0] at h45
      exact absurd h45 (List.not_mem_nil _)
    simp only [parse_height]
    rw [if_neg hne]
    simp only [parseHeightBody]
    rw [if_neg (by rw [hd]; simp), if_neg h39]
    simp only [dashOrFloat]
    rw [if_pos h45]
    simp only [hsplit, hf, hi]
  · intro hv a b hd h39 h45 hsplit hFail
    have hne : ¬ pyStrip hv = [] := by
      intro h0
      rw [h0] at h45
      exact absurd h45 (List.not_mem_nil _)
    simp only [parse_height]
    rw [if_neg hne]
    simp only [parseHeightBody]
    rw [if_neg (by rw [hd]; simp), if_neg h39]
    simp only [dashOrFloat]
    rw [if_pos h45]
    simp only [hsplit]
    rcases hFail with hfa | ⟨hb, hfb⟩
    · simp only [hfa]
    · rw [if_neg hb]
      rcases hpa : pyInt a with _ | f <;> simp only [hpa, hfb]
  · intro hv hd h39 h45 hlen
    have hne : ¬ pyStrip hv = [] := by
      intro h0
      rw [h0] at h45
      exact absurd h45 (List.not_mem_nil _)
    simp only [parse_height]
    rw [if_neg hne]
    simp only [parseHeightBody]
    rw [if_neg (by rw [hd]; simp), if_neg h39]
    simp only [dashOrFloat]
    rw [if_pos h45]
    rcases hsp : splitSep 45 (pyStrip hv) with _ | ⟨x, _ | ⟨y, _ | ⟨z, rest⟩⟩⟩
    · simp only [hsp]
    · simp only [hsp]
    · rw [hsp] at hlen
      simp at hlen
    · simp only [hsp]
  · intro hv hne hd h39 h45
    simp only [parse_height]
    rw [if_neg hne]
    simp only [parseHeightBody]
    rw [if_neg (by rw [hd]; simp), if_neg h39]
    simp only [dashOrFloat]
    rw [if_neg h45]

/-- C8, witness: a quote-form height parses as feet and inches, and the
negative decimal string is claimed by the dash branch and returns absent. -/
theorem parse_height_forms_witness :
    parse_height (some [54, 39, 50]) = some (((12 * 6 + 2 : Int) : ℚ)) ∧
    parse_height (some (pyStr ("-72.5"))) = none :=
  ⟨parse_height_forms.2.2.2.1 [54, 39, 50] [54] [50] 6 2 (by decide) (by decide)
      (by decide) (by decide) (by decide),
   parse_height_forms.2.2.2.2.2.2.1 (pyStr ("-72.5")) [] [55, 50, 46, 53]
      (by decide) (by decide) (by decide) (by decide) (Or.inl (by decide))⟩

end SleeperSpec
